import Mathlib

/-!
# Service state of package `mstate` (service.go)

A shallow embedding of `mstate/service.go`.  The Go methods of `*Service` read and
write a shared document store through the `*State` handle `s.st`; here the store is an
explicit value of type `State` that every operation receives and returns.  A Go result
`(v, err)` is an `Except string α`, an error being its message.

Parts of the package that service.go uses but does not define (the `State` handle with
its collections, `State.Charm`, `State.sequence`, `errorContextf`, the `Unit` and
`Charm` types) are modelled from the specification and marked as such.
Messages are formatted as Go's `fmt` does.  For a code point above U+00FF the quoting of
`%q` depends on the range tables of package `unicode`; these tables are the parameter
`tbl` of every definition that formats a message, and the theorems hold for every `tbl`.
-/

namespace mstate

/-- Go's `string` type. -/
abbrev string := String

/-! ## Go library: `strconv` and `fmt` -/

namespace strconv

/-- The decimal representation of a non-negative `int` (`strconv.Itoa`); the only
operand in service.go is a sequence number, which is never negative. -/
def Itoa (i : Nat) : string := String.mk (Nat.toDigits 10 i)

/-- Go's `unicode.IsPrint`.  Up to U+00FF Go decides by comparison, as here; above
U+00FF it looks the code point up in the range tables of package `unicode`, which are
the parameter `tbl`: whether a code point above U+00FF is printable. -/
def IsPrint (tbl : Char → Bool) (r : Char) : Bool :=
  if r.toNat ≤ 0xFF then
    if 0x20 ≤ r.toNat ∧ r.toNat < 0x7F then true
    else if 0xA1 ≤ r.toNat then decide (r.toNat ≠ 0xAD)
    else false
  else tbl r

/-- One lower-case hexadecimal digit. -/
def hex (n : Nat) : Char := Nat.digitChar (n % 16)

/-- The escape of one rune inside a double-quoted Go string literal
(`appendEscapedRune` with quote `"`). -/
def appendEscapedRune (tbl : Char → Bool) (r : Char) : List Char :=
  if r = '"' ∨ r = '\\' then ['\\', r]
  else if IsPrint tbl r then [r]
  else if r = '\x07' then ['\\', 'a']
  else if r = '\x08' then ['\\', 'b']
  else if r = '\x0c' then ['\\', 'f']
  else if r = '\n' then ['\\', 'n']
  else if r = '\r' then ['\\', 'r']
  else if r = '\t' then ['\\', 't']
  else if r = '\x0b' then ['\\', 'v']
  else if r.toNat < 0x20 ∨ r.toNat = 0x7F then ['\\', 'x', hex (r.toNat / 16), hex r.toNat]
  else if r.toNat < 0x10000 then
    ['\\', 'u', hex (r.toNat / 4096), hex (r.toNat / 256), hex (r.toNat / 16), hex r.toNat]
  else
    ['\\', 'U', hex (r.toNat / 268435456), hex (r.toNat / 16777216), hex (r.toNat / 1048576),
      hex (r.toNat / 65536), hex (r.toNat / 4096), hex (r.toNat / 256), hex (r.toNat / 16),
      hex r.toNat]

/-- The double-quoted Go string literal for `s` (`strconv.Quote`). -/
def Quote (tbl : Char → Bool) (s : string) : string :=
  String.mk ('"' :: (s.data.flatMap (appendEscapedRune tbl) ++ ['"']))

end strconv

namespace fmt

/-- The part of `fmt.Sprintf` that service.go uses: the verbs `%q` and `%v`, applied to
operands that are strings, errors or Stringers, each given here by its text (the
string itself, `Error()` or `String()`).  `%q` quotes the text, `%v` copies it, and a
verb left without an operand prints `%!verb(MISSING)`.  No call in service.go passes
more operands than it has verbs, so surplus operands are not rendered. -/
def sprint (tbl : Char → Bool) : List Char → List string → List Char
  | '%' :: 'q' :: rest, a :: args => (strconv.Quote tbl a).data ++ sprint tbl rest args
  | '%' :: 'v' :: rest, a :: args => a.data ++ sprint tbl rest args
  | '%' :: 'q' :: rest, [] => "%!q(MISSING)".data ++ sprint tbl rest []
  | '%' :: 'v' :: rest, [] => "%!v(MISSING)".data ++ sprint tbl rest []
  | c :: rest, args => c :: sprint tbl rest args
  | [], _ => []

/-- The formatted text (`fmt.Sprintf`). -/
def Sprintf (tbl : Char → Bool) (format : string) (args : List string) : string :=
  String.mk (sprint tbl format.data args)

/-- The message of the error built by `fmt.Errorf`. -/
def Errorf (tbl : Char → Bool) (format : string) (args : List string) : string :=
  Sprintf tbl format args

end fmt

/-! ## Go library: the document store (`mgo`) -/

namespace mgo

/-- The message of `mgo.ErrNotFound`. -/
def ErrNotFound : string := "not found"

/-- The cause reported by an insert whose `_id` is already taken (the server's
duplicate-key error; its exact text depends on the server). -/
def ErrDuplicateKey : string := "duplicate key error"

end mgo

/-! ## Data model -/

deriving instance DecidableEq for Except

namespace charm

/-- The URL of a charm (`charm.URL`). -/
structure URL where
  Schema : string
  Series : string
  Name : string
  Revision : Int
deriving DecidableEq

/-- The part of a charm's metadata that service.go reads (`charm.Meta`). -/
structure Meta where
  Subordinate : Bool
deriving DecidableEq

end charm

/-- Modelled from the spec: the `Charm` type (charm.go is not part of the sources at
hand); a resolved charm reference with its metadata. -/
structure Charm where
  url : charm.URL
  meta : charm.Meta
deriving DecidableEq

/-- Metadata accessor `Meta()` of a charm. -/
def Charm.Meta (c : Charm) : charm.Meta := c.meta

/-- Service represents the state of a service.  The Go field `st` is the store
handle, passed explicitly here. -/
structure Service where
  name : string
deriving DecidableEq

/-- The internal state of a service in the store (`serviceDoc`); `CharmURL` is a
pointer in Go, `none` is nil.  A URL is stored and read back unchanged. -/
structure serviceDoc where
  Name : string
  CharmURL : Option charm.URL
deriving DecidableEq

/-- Modelled from the spec: the unit record, `unitDoc` of unit.go,
`{ _id: unitName, servicename: serviceName, isprincipal: bool }`. -/
structure unitDoc where
  Name : string
  ServiceName : string
  IsPrincipal : Bool
deriving DecidableEq

/-- Modelled from the spec: the `Unit` type of unit.go, an in-memory view of a unit
record (name, owning service, role), without the store handle. -/
structure Unit where
  name : string
  serviceName : string
  isPrincipal : Bool
deriving DecidableEq

/-- Modelled from the spec: the persisted charm, keyed by URL.  `Meta = none` stands
for malformed data, on which loading fails. -/
structure charmDoc where
  URL : charm.URL
  Meta : Option charm.Meta
deriving DecidableEq

/-- Modelled from the spec: the sequence record `{ _id: sequenceKey, counter: integer }`.
The counter starts at 0 and is only ever incremented, so it is a natural number. -/
structure sequenceDoc where
  Name : string
  Counter : Nat
deriving DecidableEq

/-- Modelled from the spec: the root store handle `State` (state.go), as the contents
of its collections together with `faults`, the schedule of store-connectivity
failures: each round trip to the store consumes the head of the schedule, and
`some cause` makes that round trip fail with `cause` without touching the collections.
An empty schedule means the store answers every request. -/
structure State where
  services : List serviceDoc
  units : List unitDoc
  charms : List charmDoc
  sequences : List sequenceDoc
  faults : List (Option string)
deriving DecidableEq

/-! ## Store primitives -/

/-- One round trip to the store: takes the next entry of the fault schedule. -/
def State.roundTrip (st : State) : Option string × State :=
  match st.faults with
  | [] => (none, st)
  | f :: rest => (f, { st with faults := rest })

/-- The query `services.Find({_id: id}).One`: the first document with that `_id`,
or `mgo.ErrNotFound`. -/
def State.findService (st : State) (id : string) : Except string serviceDoc × State :=
  match st.roundTrip with
  | (some cause, st1) => (.error cause, st1)
  | (none, st1) =>
    match st1.services.find? (fun d => decide (d.Name = id)) with
    | some d => (.ok d, st1)
    | none => (.error mgo.ErrNotFound, st1)

/-- The mutation `$set charmurl` applied to the first service document with `_id = id`;
`none` when no document matches. -/
def setCharmURL (id : string) (url : Option charm.URL) :
    List serviceDoc → Option (List serviceDoc)
  | [] => none
  | d :: ds =>
    if d.Name = id then some ({ d with CharmURL := url } :: ds)
    else (setCharmURL id url ds).map (fun ds1 => d :: ds1)

/-- The update `services.Update({_id: id}, {$set: {charmurl: url}})`: changes one
matching document, or fails with `mgo.ErrNotFound` when none matches. -/
def State.updateService (st : State) (id : string) (url : Option charm.URL) :
    Option string × State :=
  match st.roundTrip with
  | (some cause, st1) => (some cause, st1)
  | (none, st1) =>
    match setCharmURL id url st1.services with
    | some svcs => (none, { st1 with services := svcs })
    | none => (some mgo.ErrNotFound, st1)

/-- The insert `units.Insert(udoc)`: fails when the `_id` is already taken. -/
def State.insertUnit (st : State) (udoc : unitDoc) : Option string × State :=
  match st.roundTrip with
  | (some cause, st1) => (some cause, st1)
  | (none, st1) =>
    if st1.units.any (fun d => decide (d.Name = udoc.Name)) then (some mgo.ErrDuplicateKey, st1)
    else (none, { st1 with units := st1.units ++ [udoc] })

/-- The selector `{_id: name, servicename: serviceName}` on unit records. -/
def unitSel (name serviceName : string) (d : unitDoc) : Bool :=
  decide (d.Name = name) && decide (d.ServiceName = serviceName)

/-- The removal `units.Remove({_id: name, servicename: serviceName})`: deletes one
matching document, or fails with `mgo.ErrNotFound` when none matches. -/
def State.removeUnit (st : State) (name serviceName : string) : Option string × State :=
  match st.roundTrip with
  | (some cause, st1) => (some cause, st1)
  | (none, st1) =>
    if st1.units.any (unitSel name serviceName) then
      (none, { st1 with units := st1.units.eraseP (unitSel name serviceName) })
    else (some mgo.ErrNotFound, st1)

/-- The query `units.Find({_id: name, servicename: serviceName}).One`. -/
def State.findUnit (st : State) (name serviceName : string) : Except string unitDoc × State :=
  match st.roundTrip with
  | (some cause, st1) => (.error cause, st1)
  | (none, st1) =>
    match st1.units.find? (unitSel name serviceName) with
    | some d => (.ok d, st1)
    | none => (.error mgo.ErrNotFound, st1)

/-- The query `units.Find({servicename: serviceName}).All`. -/
def State.findUnits (st : State) (serviceName : string) : Except string (List unitDoc) × State :=
  match st.roundTrip with
  | (some cause, st1) => (.error cause, st1)
  | (none, st1) => (.ok (st1.units.filter (fun d => decide (d.ServiceName = serviceName))), st1)

/-- The value of the counter for `key`: 0 when the key has no record yet. -/
def counter (key : string) (seqs : List sequenceDoc) : Nat :=
  match seqs.find? (fun d => decide (d.Name = key)) with
  | some d => d.Counter
  | none => 0

/-- The increment of the counter for `key`, creating its record on first use. -/
def increment (key : string) : List sequenceDoc → List sequenceDoc
  | [] => [{ Name := key, Counter := 1 }]
  | d :: ds =>
    if d.Name = key then { d with Counter := d.Counter + 1 } :: ds
    else d :: increment key ds

/-- Modelled from the spec: `State.sequence` (state.go), which atomically reads and
increments the counter for `name` and returns the value before the increment, 0 on
first use.  A connectivity failure is returned as its cause. -/
def State.sequence (st : State) (name : string) : Except string Nat × State :=
  match st.roundTrip with
  | (some cause, st1) => (.error cause, st1)
  | (none, st1) =>
    (.ok (counter name st1.sequences), { st1 with sequences := increment name st1.sequences })

/-- Modelled from the spec: `State.Charm` (state.go), which resolves a charm reference
to its metadata, failing with not-found when the charm cannot be located (a nil
reference locates nothing) and with a load error on malformed data. -/
def State.Charm (st : State) (url : Option charm.URL) : Except string mstate.Charm × State :=
  match st.roundTrip with
  | (some cause, st1) => (.error cause, st1)
  | (none, st1) =>
    match url with
    | none => (.error mgo.ErrNotFound, st1)
    | some u =>
      match st1.charms.find? (fun d => decide (d.URL = u)) with
      | none => (.error mgo.ErrNotFound, st1)
      | some d =>
        match d.Meta with
        | none => (.error "malformed charm data", st1)
        | some m => (.ok { url := u, meta := m }, st1)

/-- Modelled from the spec: `errorContextf` (not part of the sources at hand), which
prefixes a failure with the formatted operation context: `context: cause`. -/
def errorContextf (tbl : Char → Bool) (err : string) (format : string)
    (args : List string) : string :=
  fmt.Sprintf tbl format args ++ ": " ++ err

/-! ## Service (service.go) -/

/-- Name returns the service name. -/
def Service.Name (s : Service) : string := s.name

/-- String returns the service name. -/
def Service.String (s : Service) : string := s.Name

/-- Name returns the unit name. -/
def Unit.Name (u : Unit) : string := u.name

/-- IsPrincipal returns whether the unit is a principal unit. -/
def Unit.IsPrincipal (u : Unit) : Bool := u.isPrincipal

/-- Modelled from the spec: the `String` method of `*Unit` (unit.go), the unit name,
which is what `%q` prints for a unit. -/
def Unit.String (u : Unit) : string := u.Name

/-- CharmURL returns the charm URL this service is supposed to use. -/
def Service.CharmURL (tbl : Char → Bool)
    (s : Service) (st : State) : Except string (Option charm.URL) × State :=
  match st.findService s.name with
  | (.error err, st1) =>
    (.error (fmt.Errorf tbl "can't get the charm URL of service %q: %v" [s.String, err]), st1)
  | (.ok sdoc, st1) => (.ok sdoc.CharmURL, st1)

/-- SetCharmURL changes the charm URL for the service. -/
def Service.SetCharmURL (tbl : Char → Bool) (s : Service) (st : State) (url : Option charm.URL) :
    Option string × State :=
  match st.updateService s.name url with
  | (some err, st1) =>
    (some (fmt.Errorf tbl "can't set the charm URL of service %q: %v" [s.String, err]), st1)
  | (none, st1) => (none, st1)

/-- Charm returns the service's charm. -/
def Service.Charm (tbl : Char → Bool)
    (s : Service) (st : State) : Except string mstate.Charm × State :=
  match s.CharmURL tbl st with
  | (.error err, st1) => (.error err, st1)
  | (.ok url, st1) => st1.Charm url

/-- Adds a new unit to the service (`addUnit`): allocates the next sequence number of
the service, builds the record and inserts it.  The deferred `errorContextf` wraps
both failures. -/
def Service.addUnit (tbl : Char → Bool) (s : Service) (st : State) (principalName : string) :
    Except string mstate.Unit × State :=
  match st.sequence s.Name with
  | (.error err, st1) =>
    (.error (errorContextf tbl err "can't add unit to service %q" [s.String]), st1)
  | (.ok id, st1) =>
    let name := s.name ++ "/" ++ strconv.Itoa id
    let udoc : unitDoc :=
      { Name := name, ServiceName := s.name, IsPrincipal := decide (principalName = "") }
    match st1.insertUnit udoc with
    | (some err, st2) =>
      (.error (errorContextf tbl err "can't add unit to service %q" [s.String]), st2)
    | (none, st2) =>
      (.ok { name := name, serviceName := s.name, isPrincipal := decide (principalName = "") },
        st2)

/-- AddUnit adds a new principal unit to the service. -/
def Service.AddUnit (tbl : Char → Bool)
    (s : Service) (st : State) : Except string mstate.Unit × State :=
  match s.Charm tbl st with
  | (.error err, st1) => (.error (fmt.Errorf tbl "can't add unit to service %q: %v" [err]), st1)
  | (.ok ch, st1) =>
    if ch.Meta.Subordinate then
      (.error (fmt.Errorf tbl "cannot directly add units to subordinate service %q" [s.String]), st1)
    else s.addUnit tbl st1 ""

/-- AddUnitSubordinateTo adds a new subordinate unit to the service, subordinate to
principal. -/
def Service.AddUnitSubordinateTo (tbl : Char → Bool)
    (s : Service) (st : State) (principal : mstate.Unit) :
    Except string mstate.Unit × State :=
  match s.Charm tbl st with
  | (.error err, st1) => (.error (fmt.Errorf tbl "can't add unit to service %q: %v" [err]), st1)
  | (.ok ch, st1) =>
    if !ch.Meta.Subordinate then
      (.error (fmt.Errorf tbl "can't add unit of principal service %q as a subordinate of %q"
        [s.String, principal.String]), st1)
    else if !principal.IsPrincipal then
      (.error "a subordinate unit must be added to a principal unit", st1)
    else s.addUnit tbl st1 principal.name

/-- RemoveUnit removes a unit. -/
def Service.RemoveUnit (tbl : Char → Bool)
    (s : Service) (st : State) (unit : mstate.Unit) : Option string × State :=
  match st.removeUnit unit.name s.name with
  | (some err, st1) => (some (fmt.Errorf tbl "can't remove unit %q: %v" [unit.String, err]), st1)
  | (none, st1) => (none, st1)

/-- Unit returns the service's unit with name. -/
def Service.Unit (tbl : Char → Bool)
    (s : Service) (st : State) (name : string) : Except string mstate.Unit × State :=
  match st.findUnit name s.name with
  | (.error err, st1) =>
    (.error (fmt.Errorf tbl "can't get unit %q from service %q: %v" [name, s.name, err]), st1)
  | (.ok udoc, st1) =>
    (.ok { name := name, serviceName := s.name, isPrincipal := udoc.IsPrincipal }, st1)

/-- AllUnits returns all units of the service. -/
def Service.AllUnits (tbl : Char → Bool)
    (s : Service) (st : State) : Except string (List mstate.Unit) × State :=
  match st.findUnits s.name with
  | (.error err, st1) =>
    (.error (fmt.Errorf tbl "can't get all units from service %q: %v" [err]), st1)
  | (.ok udocs, st1) =>
    (.ok (udocs.map (fun v =>
      { name := v.Name, serviceName := s.name, isPrincipal := v.IsPrincipal })), st1)

/-! ## Call sequences -/

/-- A call of one of the three unit-lifecycle operations of a service. -/
inductive Call where
  | AddUnit (s : Service)
  | AddUnitSubordinateTo (s : Service) (principal : mstate.Unit)
  | RemoveUnit (s : Service) (unit : mstate.Unit)
deriving DecidableEq

/-- The service a call is made on. -/
def Call.service : Call → Service
  | .AddUnit s => s
  | .AddUnitSubordinateTo s _ => s
  | .RemoveUnit s _ => s

/-- Performs one call: the unit it returned, if it returned one, and the store after it. -/
def Call.run (tbl : Char → Bool) (c : Call) (st : State) : Option mstate.Unit × State :=
  match c with
  | .AddUnit s =>
    match s.AddUnit tbl st with
    | (.ok u, st1) => (some u, st1)
    | (.error _, st1) => (none, st1)
  | .AddUnitSubordinateTo s principal =>
    match s.AddUnitSubordinateTo tbl st principal with
    | (.ok u, st1) => (some u, st1)
    | (.error _, st1) => (none, st1)
  | .RemoveUnit s unit => (none, (s.RemoveUnit tbl st unit).2)

/-- The store after a sequence of calls. -/
def runCalls (tbl : Char → Bool) : List Call → State → State
  | [], st => st
  | c :: cs, st => runCalls tbl cs (c.run tbl st).2

/-- The units successfully returned, in call order, by the calls made on the service
named `n` in a sequence of calls on any services. -/
def returned (tbl : Char → Bool) (n : string) : List Call → State → List mstate.Unit
  | [], _ => []
  | c :: cs, st =>
    match (c.run tbl st).1 with
    | some u =>
      if c.service.name = n then u :: returned tbl n cs (c.run tbl st).2
      else returned tbl n cs (c.run tbl st).2
    | none => returned tbl n cs (c.run tbl st).2

/-- The units successfully returned, in call order, by the AddUnit calls made on the
service named `n` in a sequence of calls on any services. -/
def returnedByAddUnit (tbl : Char → Bool) (n : string) :
    List Call → State → List mstate.Unit
  | [], _ => []
  | c :: cs, st =>
    match c, (c.run tbl st).1 with
    | .AddUnit s, some u =>
      if s.name = n then u :: returnedByAddUnit tbl n cs (c.run tbl st).2
      else returnedByAddUnit tbl n cs (c.run tbl st).2
    | _, _ => returnedByAddUnit tbl n cs (c.run tbl st).2

/-- The name of the unit of service `n` with sequence number `k`. -/
def unitName (n : string) (k : Nat) : string := n ++ "/" ++ strconv.Itoa k

/-! ## Predicates on stores and errors -/

/-- The number a list of decimal digit characters stands for. -/
def decodeDecimal (l : List Char) : Nat :=
  Nat.ofDigits 10 ((l.map (fun c => c.toNat - 48)).reverse)

/-- Two stores hold the same collections (they may differ in the fault schedule). -/
def State.sameData (a b : State) : Prop :=
  a.services = b.services ∧ a.units = b.units ∧ a.charms = b.charms ∧
    a.sequences = b.sequences

/-- No two unit records share an `_id` (the store's unique key). -/
def uniqueUnitIds (st : State) : Prop := (st.units.map (fun d => d.Name)).Nodup

instance (st : State) : Decidable (uniqueUnitIds st) := by
  unfold uniqueUnitIds; infer_instance

/-- A fresh store: no unit has been added and no sequence number has been allocated. -/
def State.fresh (st : State) : Prop := st.units = [] ∧ st.sequences = []

instance (st : State) : Decidable st.fresh := by
  unfold State.fresh; infer_instance

/-- Follows the spec (section 7): the ConstraintViolation errors of service.go are the
message for a principal unit added to a subordinate-charm service, the message for a
subordinate unit added where the service's charm is not subordinate, and the fixed
message for a subordinate unit added to a non-principal unit. -/
def isConstraintViolation (msg : string) : Bool :=
  "cannot directly add units to subordinate service ".data.isPrefixOf msg.data
  || "can't add unit of principal service ".data.isPrefixOf msg.data
  || decide (msg = "a subordinate unit must be added to a principal unit")

/-- The record a unit was built from. -/
def Unit.doc (u : mstate.Unit) : unitDoc :=
  { Name := u.name, ServiceName := u.serviceName, IsPrincipal := u.isPrincipal }

/-- What an operation that adds a unit to service `s` with role `flag` may do to the
store: in every case the services and charms collections stay as they are and a store
without scheduled failures remains one; then either the operation fails before a
sequence number is allocated and nothing changes, or it fails after the allocation (on
a store without scheduled failures only because the name is taken) and only the
counter has moved, or it inserts and returns the unit numbered by the counter. -/
def addOutcome (s : Service) (flag : Bool) (st : State)
    (r : Except string mstate.Unit × State) : Prop :=
  r.2.services = st.services ∧ r.2.charms = st.charms ∧
  (st.faults = [] → r.2.faults = []) ∧
  (((∃ e, r.1 = .error e) ∧ r.2.units = st.units ∧ r.2.sequences = st.sequences) ∨
   ((∃ e, r.1 = .error e) ∧ r.2.units = st.units ∧
      r.2.sequences = increment s.name st.sequences ∧
      (st.faults = [] →
        ∃ x ∈ st.units, x.Name = unitName s.name (counter s.name st.sequences))) ∨
   (r.1 = .ok ⟨unitName s.name (counter s.name st.sequences), s.name, flag⟩ ∧
      r.2.units = st.units ++
        [⟨unitName s.name (counter s.name st.sequences), s.name, flag⟩] ∧
      r.2.sequences = increment s.name st.sequences))

/-- The invariant of a store reached from a fresh one on which no request fails: no
connectivity failure is scheduled, and every unit record is named after its service and
a sequence number that the service's counter has already passed. -/
def State.allocated (st : State) : Prop :=
  st.faults = [] ∧
  ∀ d ∈ st.units, ∃ k, d.Name = unitName d.ServiceName k ∧ k < counter d.ServiceName st.sequences

/-! ## Example stores -/

/-- The charm URL `cs:precise/name-1`. -/
def exampleURL (name : string) : charm.URL :=
  { Schema := "cs", Series := "precise", Name := name, Revision := 1 }

/-- A fresh store with the principal services wordpress and mysql and the subordinate
service logging. -/
def exampleStore : State :=
  { services :=
      [{ Name := "wordpress", CharmURL := some (exampleURL "wordpress") },
       { Name := "mysql", CharmURL := some (exampleURL "mysql") },
       { Name := "logging", CharmURL := some (exampleURL "logging") }]
    units := []
    charms :=
      [{ URL := exampleURL "wordpress", Meta := some { Subordinate := false } },
       { URL := exampleURL "mysql", Meta := some { Subordinate := false } },
       { URL := exampleURL "logging", Meta := some { Subordinate := true } }]
    sequences := []
    faults := [] }

/-- The services of the examples. -/
def wordpress : Service := { name := "wordpress" }

/-- The mysql service. -/
def mysql : Service := { name := "mysql" }

/-- The subordinate logging service. -/
def logging : Service := { name := "logging" }

/-- A stand-in for the range tables of package `unicode` in the examples: the texts of
the examples have no code point above U+00FF, so the table is never consulted. -/
def exampleTable : Char → Bool := fun _ => false

/-- The example store after three units were added to wordpress and one to mysql. -/
def fourUnitsStore : State :=
  runCalls exampleTable [.AddUnit wordpress, .AddUnit wordpress, .AddUnit mysql, .AddUnit wordpress]
    exampleStore

/-- The example store, still fresh, when the fourth request to the store fails with the
cause EOF: for a first AddUnit that is the insert, after the sequence number has been
allocated. -/
def flakyStore : State := { exampleStore with faults := [none, none, none, some "EOF"] }

/-- The example store at a moment when the store cannot be reached: the next round
trip fails with the cause EOF. -/
def unreachableStore : State := { exampleStore with faults := [some "EOF"] }

/-- The text `part` occurs in the message `msg`. -/
def occursIn (part msg : string) : Prop := part.data <:+: msg.data

instance (part msg : string) : Decidable (occursIn part msg) := by
  unfold occursIn; infer_instance

/-- An empty store: no service document, no unit, no charm. -/
def emptyStore : State :=
  { services := [], units := [], charms := [], sequences := [], faults := [] }

/-! # Theorems -/
/-! ## Frame lemmas -/

theorem roundTrip_sameData (st : State) : st.roundTrip.2.sameData st := by
  unfold State.roundTrip State.sameData
  split <;> simp

theorem roundTrip_reliable (st : State) (h : st.faults = []) : st.roundTrip = (none, st) := by
  unfold State.roundTrip; rw [h]

theorem findService_state (st : State) (id : string) :
    (st.findService id).2 = st.roundTrip.2 := by
  unfold State.findService
  split
  · next h => simp [h]
  · next h => split <;> simp [h]

theorem findUnit_state (st : State) (name svc : string) :
    (st.findUnit name svc).2 = st.roundTrip.2 := by
  unfold State.findUnit
  split
  · next h => simp [h]
  · next h => split <;> simp [h]

theorem findUnits_state (st : State) (svc : string) :
    (st.findUnits svc).2 = st.roundTrip.2 := by
  unfold State.findUnits
  split <;> next h => simp [h]

theorem StateCharm_state (st : State) (url : Option charm.URL) :
    (st.Charm url).2 = st.roundTrip.2 := by
  unfold State.Charm
  split
  · next h => simp [h]
  · next h =>
    split
    · simp [h]
    · split
      · simp [h]
      · split <;> simp [h]

theorem CharmURL_state (tbl : Char → Bool)
    (s : Service) (st : State) : (s.CharmURL tbl st).2 = st.roundTrip.2 := by
  unfold Service.CharmURL
  split <;> next h => simp [← findService_state st s.name, h]

theorem Charm_sameData (tbl : Char → Bool)
    (s : Service) (st : State) : (s.Charm tbl st).2.sameData st := by
  unfold Service.Charm
  split
  · next h =>
    have := CharmURL_state tbl s st
    rw [h] at this
    simp only at this ⊢
    rw [this]; exact roundTrip_sameData st
  · next url st1 h =>
    have := CharmURL_state tbl s st
    rw [h] at this
    simp only at this
    rw [StateCharm_state, this]
    have h1 := roundTrip_sameData st.roundTrip.2
    have h2 := roundTrip_sameData st
    unfold State.sameData at *
    simp_all

theorem Charm_reliable (tbl : Char → Bool) (s : Service) (st : State) (h : st.faults = []) :
    (s.Charm tbl st).2.faults = [] := by
  unfold Service.Charm
  have h1 := CharmURL_state tbl s st
  rw [roundTrip_reliable st h] at h1
  simp only at h1
  split
  · next hc => rw [hc] at h1; simp only at h1 ⊢; rw [h1]; exact h
  · next url st1 hc =>
    rw [hc] at h1
    simp only at h1
    rw [StateCharm_state, h1, roundTrip_reliable st h]
    exact h

/-! ## The store primitives, outcome by outcome -/

theorem sequence_outcome (st : State) (n : string) :
    (st.sequence n).2.services = st.services ∧ (st.sequence n).2.units = st.units ∧
    (st.sequence n).2.charms = st.charms ∧
    (((∃ c, (st.sequence n).1 = .error c) ∧ (st.sequence n).2.sequences = st.sequences) ∨
     ((st.sequence n).1 = .ok (counter n st.sequences) ∧
      (st.sequence n).2.sequences = increment n st.sequences)) := by
  obtain ⟨h1, h2, h3, h4⟩ := roundTrip_sameData st
  unfold State.sequence
  split
  · next c st1 h => rw [h] at h1 h2 h3 h4; simp_all
  · next st1 h => rw [h] at h1 h2 h3 h4; simp_all

theorem sequence_reliable (st : State) (n : string) (h : st.faults = []) :
    st.sequence n =
      (.ok (counter n st.sequences), { st with sequences := increment n st.sequences }) := by
  unfold State.sequence
  rw [roundTrip_reliable st h]

theorem insertUnit_outcome (st : State) (d : unitDoc) :
    (st.insertUnit d).2.services = st.services ∧ (st.insertUnit d).2.charms = st.charms ∧
    (st.insertUnit d).2.sequences = st.sequences ∧
    (((∃ c, (st.insertUnit d).1 = some c) ∧ (st.insertUnit d).2.units = st.units) ∨
     ((st.insertUnit d).1 = none ∧ (st.insertUnit d).2.units = st.units ++ [d])) := by
  obtain ⟨h1, h2, h3, h4⟩ := roundTrip_sameData st
  unfold State.insertUnit
  split
  · next c st1 h => rw [h] at h1 h2 h3 h4; simp_all
  · next st1 h =>
    rw [h] at h1 h2 h3 h4
    simp only at h1 h2 h3 h4
    split <;> simp_all

theorem insertUnit_reliable (st : State) (d : unitDoc) (h : st.faults = []) :
    (st.insertUnit d).2.faults = [] ∧
    ((st.insertUnit d).1 ≠ none → ∃ x ∈ st.units, x.Name = d.Name) := by
  unfold State.insertUnit
  rw [roundTrip_reliable st h]
  simp only
  split
  · next hany =>
    refine ⟨h, fun _ => ?_⟩
    simpa using hany
  · exact ⟨h, fun hc => absurd rfl hc⟩

/-- The three outcomes of `addUnit`: the sequence allocation fails and nothing changes;
the insert fails and only the counter has moved; or the unit numbered by the counter is
inserted and returned. -/
theorem addUnit_outcome (tbl : Char → Bool) (s : Service) (st : State) (p : string) :
    addOutcome s (decide (p = "")) st (s.addUnit tbl st p) := by
  have hseq := sequence_outcome st s.name
  have hrel := sequence_reliable st s.name
  unfold addOutcome Service.addUnit Service.Name
  obtain ⟨r, st1, hq⟩ : ∃ r st1, st.sequence s.name = (r, st1) := ⟨_, _, rfl⟩
  rw [hq] at hseq hrel ⊢
  simp only at hseq
  obtain ⟨h1, h2, h3, h4⟩ := hseq
  cases r with
  | error c =>
    refine ⟨h1, h3, fun hf => ?_, Or.inl ⟨⟨_, rfl⟩, h2, ?_⟩⟩
    · exact absurd (hrel hf) (by simp)
    · simpa using h4
  | ok id =>
    simp only [false_and, exists_const, Except.ok.injEq, false_or, reduceCtorEq] at h4
    obtain ⟨hid, h4⟩ := h4
    subst hid
    simp only
    have hins := insertUnit_outcome st1
      ⟨s.name ++ "/" ++ strconv.Itoa (counter s.name st.sequences), s.name, decide (p = "")⟩
    have hirel := insertUnit_reliable st1
      ⟨s.name ++ "/" ++ strconv.Itoa (counter s.name st.sequences), s.name, decide (p = "")⟩
    obtain ⟨r2, st2, hi⟩ : ∃ r2 st2, st1.insertUnit
      ⟨s.name ++ "/" ++ strconv.Itoa (counter s.name st.sequences), s.name, decide (p = "")⟩ =
        (r2, st2) := ⟨_, _, rfl⟩
    rw [hi] at hins hirel ⊢
    simp only at hins hirel
    obtain ⟨g1, g2, g3, g4⟩ := hins
    have hst1 : st.faults = [] → st1.faults = [] := by
      intro hf
      have := hrel hf
      simp only [Prod.mk.injEq] at this
      rw [this.2]
      exact hf
    cases r2 with
    | some c =>
      refine ⟨g1.trans h1, g2.trans h3, fun hf => (hirel (hst1 hf)).1,
        Or.inr (Or.inl ⟨⟨_, rfl⟩, ?_, g3.trans h4, fun hf => ?_⟩)⟩
      · simp_all
      · obtain ⟨x, hx, hn⟩ := (hirel (hst1 hf)).2 (by simp)
        exact ⟨x, h2 ▸ hx, hn⟩
    | none =>
      refine ⟨g1.trans h1, g2.trans h3, fun hf => (hirel (hst1 hf)).1,
        Or.inr (Or.inr ⟨rfl, ?_, g3.trans h4⟩)⟩
      simp_all [unitName]

theorem addOutcome_of_sameData (s : Service) (flag : Bool) (st st1 : State)
    (r : Except string mstate.Unit × State) (hs : st1.sameData st)
    (hf : st.faults = [] → st1.faults = []) (h : addOutcome s flag st1 r) :
    addOutcome s flag st r := by
  obtain ⟨e1, e2, e3, e4⟩ := hs
  unfold addOutcome at h ⊢
  rw [e1, e2, e3, e4] at h
  obtain ⟨a1, a2, a3, a4⟩ := h
  refine ⟨a1, a2, fun h0 => a3 (hf h0), ?_⟩
  rcases a4 with a | ⟨b1, b2, b3, b4⟩ | c
  · exact Or.inl a
  · exact Or.inr (Or.inl ⟨b1, b2, b3, fun h0 => b4 (hf h0)⟩)
  · exact Or.inr (Or.inr c)

theorem addOutcome_of_error (s : Service) (flag : Bool) (st st1 : State) (e : string)
    (hs : st1.sameData st) (hf : st.faults = [] → st1.faults = []) :
    addOutcome s flag st (.error e, st1) := by
  obtain ⟨e1, e2, e3, e4⟩ := hs
  exact ⟨e1, e3, hf, Or.inl ⟨⟨e, rfl⟩, e2, e4⟩⟩

/-! ## Error messages -/

theorem Errorf_subordinate_service (tbl : Char → Bool) (a : string) :
    fmt.Errorf tbl "cannot directly add units to subordinate service %q" [a] =
      "cannot directly add units to subordinate service " ++ strconv.Quote tbl a := by
  have h : fmt.Errorf tbl "cannot directly add units to subordinate service %q" [a] =
      "cannot directly add units to subordinate service " ++ (strconv.Quote tbl a ++ "") := rfl
  rw [h, String.append_empty]

theorem Errorf_principal_service (tbl : Char → Bool) (a b : string) :
    fmt.Errorf tbl "can't add unit of principal service %q as a subordinate of %q" [a, b] =
      "can't add unit of principal service " ++ strconv.Quote tbl a ++ " as a subordinate of " ++
        strconv.Quote tbl b := by
  have h : fmt.Errorf tbl "can't add unit of principal service %q as a subordinate of %q" [a, b] =
      "can't add unit of principal service " ++ (strconv.Quote tbl a ++ (" as a subordinate of " ++
        (strconv.Quote tbl b ++ ""))) := rfl
  rw [h, String.append_empty]
  simp only [String.append_assoc]

theorem isConstraintViolation_subordinate_service (a : string) :
    isConstraintViolation ("cannot directly add units to subordinate service " ++ a) = true := by
  simp [isConstraintViolation, List.isPrefixOf_iff_prefix]

theorem isConstraintViolation_principal_service (a : string) :
    isConstraintViolation ("can't add unit of principal service " ++ a) = true := by
  simp [isConstraintViolation, List.isPrefixOf_iff_prefix]

/-! ## The guards of AddUnit and AddUnitSubordinateTo -/

theorem AddUnit_charm_error (tbl : Char → Bool) (s : Service) (st st1 : State) (err : string)
    (hch : s.Charm tbl st = (.error err, st1)) :
    s.AddUnit tbl st = (.error (fmt.Errorf tbl "can't add unit to service %q: %v" [err]), st1) := by
  simp [Service.AddUnit, hch]

theorem AddUnit_charm_ok (tbl : Char → Bool) (s : Service) (st st1 : State) (ch : mstate.Charm)
    (hch : s.Charm tbl st = (.ok ch, st1)) :
    s.AddUnit tbl st =
      if ch.Meta.Subordinate then
        (.error (fmt.Errorf tbl "cannot directly add units to subordinate service %q" [s.String]),
          st1)
      else s.addUnit tbl st1 "" := by
  simp [Service.AddUnit, hch]

theorem AddUnitSubordinateTo_charm_error (tbl : Char → Bool)
    (s : Service) (st st1 : State) (err : string)
    (principal : mstate.Unit) (hch : s.Charm tbl st = (.error err, st1)) :
    s.AddUnitSubordinateTo tbl st principal =
      (.error (fmt.Errorf tbl "can't add unit to service %q: %v" [err]), st1) := by
  simp [Service.AddUnitSubordinateTo, hch]

theorem AddUnitSubordinateTo_charm_ok (tbl : Char → Bool)
    (s : Service) (st st1 : State) (ch : mstate.Charm)
    (principal : mstate.Unit) (hch : s.Charm tbl st = (.ok ch, st1)) :
    s.AddUnitSubordinateTo tbl st principal =
      if !ch.Meta.Subordinate then
        (.error (fmt.Errorf tbl "can't add unit of principal service %q as a subordinate of %q"
          [s.String, principal.String]), st1)
      else if !principal.IsPrincipal then
        (.error "a subordinate unit must be added to a principal unit", st1)
      else s.addUnit tbl st1 principal.name := by
  simp [Service.AddUnitSubordinateTo, hch]

theorem AddUnitSubordinateTo_principal_message (tbl : Char → Bool) (s : Service) (st st1 : State)
    (ch : mstate.Charm) (principal : mstate.Unit)
    (hch : s.Charm tbl st = (.ok ch, st1)) (hsub : ch.Meta.Subordinate = false) :
    s.AddUnitSubordinateTo tbl st principal =
      (.error ("can't add unit of principal service " ++ strconv.Quote tbl s.name ++
        " as a subordinate of " ++ strconv.Quote tbl principal.name), st1) := by
  simp [Service.AddUnitSubordinateTo, hch, hsub, Errorf_principal_service tbl, Service.String,
    Service.Name, Unit.String, Unit.Name]

/-- C2: when the service's charm resolves and is a subordinate charm, AddUnit fails with
the constraint violation "cannot directly add units to subordinate service" naming the
service, and the units collection after the call is the one before it. -/
theorem AddUnit_subordinate_charm_fails (tbl : Char → Bool)
    (s : Service) (st st1 : State) (ch : mstate.Charm)
    (hch : s.Charm tbl st = (.ok ch, st1)) (hsub : ch.Meta.Subordinate = true) :
    (s.AddUnit tbl st).1 =
      .error ("cannot directly add units to subordinate service " ++ strconv.Quote tbl s.name) ∧
    (∃ e, (s.AddUnit tbl st).1 = .error e ∧ isConstraintViolation e = true) ∧
    (s.AddUnit tbl st).2.units = st.units := by
  have hf := (Charm_sameData tbl s st).2.1
  rw [hch] at hf
  have hmsg : (s.AddUnit tbl st).1 =
      .error ("cannot directly add units to subordinate service " ++ strconv.Quote tbl s.name) := by
    simp [Service.AddUnit, hch, hsub, Errorf_subordinate_service tbl, Service.String, Service.Name]
  refine ⟨hmsg, ⟨_, hmsg, isConstraintViolation_subordinate_service _⟩, ?_⟩
  simp [Service.AddUnit, hch, hsub]
  exact hf

theorem AddUnit_subordinate_charm_fails_witness :
    (logging.AddUnit exampleTable exampleStore).1 =
      .error ("cannot directly add units to subordinate service " ++ strconv.Quote exampleTable "logging") ∧
    (∃ e, (logging.AddUnit exampleTable exampleStore).1 = .error e ∧ isConstraintViolation e = true) ∧
    (logging.AddUnit exampleTable exampleStore).2.units = exampleStore.units :=
  AddUnit_subordinate_charm_fails exampleTable logging exampleStore exampleStore
    ⟨exampleURL "logging", ⟨true⟩⟩ (by decide) (by decide)

/-- C3: when the service's charm resolves and is not a subordinate charm,
AddUnitSubordinateTo fails, for every unit passed as principal, with the constraint
violation that names the service and the principal, which is not the fixed error of the
principal check, and the units collection after the call is the one before it. -/
theorem AddUnitSubordinateTo_principal_charm_fails (tbl : Char → Bool)
    (s : Service) (st st1 : State)
    (ch : mstate.Charm) (principal : mstate.Unit)
    (hch : s.Charm tbl st = (.ok ch, st1)) (hsub : ch.Meta.Subordinate = false) :
    (s.AddUnitSubordinateTo tbl st principal).1 =
      .error ("can't add unit of principal service " ++ strconv.Quote tbl s.name ++
        " as a subordinate of " ++ strconv.Quote tbl principal.name) ∧
    (s.AddUnitSubordinateTo tbl st principal).1 ≠
      .error "a subordinate unit must be added to a principal unit" ∧
    (∃ e, (s.AddUnitSubordinateTo tbl st principal).1 = .error e ∧
      isConstraintViolation e = true) ∧
    (s.AddUnitSubordinateTo tbl st principal).2.units = st.units := by
  have hf := (Charm_sameData tbl s st).2.1
  rw [hch] at hf
  have hmsg : (s.AddUnitSubordinateTo tbl st principal).1 =
      .error ("can't add unit of principal service " ++ strconv.Quote tbl s.name ++
        " as a subordinate of " ++ strconv.Quote tbl principal.name) := by
    simp [Service.AddUnitSubordinateTo, hch, hsub, Errorf_principal_service tbl, Service.String,
      Service.Name, Unit.String, Unit.Name]
  refine ⟨hmsg, ?_, ⟨_, hmsg, ?_⟩, ?_⟩
  · rw [hmsg]
    intro h
    injection h with h
    have h2 := congrArg (fun m : string => m.data.head?) h
    simp only [String.append_assoc] at h2
    change some 'c' = some 'a' at h2
    exact absurd h2 (by decide)
  · simp only [String.append_assoc]
    exact isConstraintViolation_principal_service _
  · simp [Service.AddUnitSubordinateTo, hch, hsub]
    exact hf

theorem AddUnitSubordinateTo_principal_charm_fails_witness :
    (wordpress.AddUnitSubordinateTo exampleTable exampleStore ⟨"mysql/0", "mysql", false⟩).1 =
      .error ("can't add unit of principal service " ++ strconv.Quote exampleTable "wordpress" ++
        " as a subordinate of " ++ strconv.Quote exampleTable "mysql/0") ∧
    (wordpress.AddUnitSubordinateTo exampleTable exampleStore ⟨"mysql/0", "mysql", false⟩).1 ≠
      .error "a subordinate unit must be added to a principal unit" ∧
    (∃ e, (wordpress.AddUnitSubordinateTo exampleTable exampleStore ⟨"mysql/0", "mysql", false⟩).1 = .error e ∧
      isConstraintViolation e = true) ∧
    (wordpress.AddUnitSubordinateTo exampleTable exampleStore ⟨"mysql/0", "mysql", false⟩).2.units =
      exampleStore.units :=
  AddUnitSubordinateTo_principal_charm_fails exampleTable wordpress exampleStore exampleStore
    ⟨exampleURL "wordpress", ⟨false⟩⟩ ⟨"mysql/0", "mysql", false⟩ (by decide) (by decide)

/-- C4 (as stated, refuted): on a store without a document for the service,
AddUnitSubordinateTo with a non-principal unit fails with the wrapped charm-lookup
failure, which is not a constraint violation. -/
theorem AddUnitSubordinateTo_lookup_failure_not_constraint :
    (logging.AddUnitSubordinateTo exampleTable emptyStore ⟨"logging/0", "logging", false⟩).1 =
      .error ("can't add unit to service \"can't get the charm URL of service " ++
        "\\\"logging\\\": not found\": %!v(MISSING)") ∧
    ¬ ∃ e, (logging.AddUnitSubordinateTo exampleTable emptyStore ⟨"logging/0", "logging", false⟩).1 =
      .error e ∧ isConstraintViolation e = true := by
  constructor
  · decide
  · rintro ⟨e, he, hcv⟩
    have h : (logging.AddUnitSubordinateTo exampleTable emptyStore ⟨"logging/0", "logging", false⟩).1 =
      .error ("can't add unit to service \"can't get the charm URL of service " ++
        "\\\"logging\\\": not found\": %!v(MISSING)") := by decide
    rw [h] at he
    injection he with he
    subst he
    revert hcv
    decide

/-- C4 (amended): for every service, store and unit with IsPrincipal false,
AddUnitSubordinateTo fails and leaves the units collection as it was; whenever the
service's charm resolves the error is a constraint violation, and it is the fixed error
of the principal check when that charm is a subordinate charm. -/
theorem AddUnitSubordinateTo_non_principal_fails (tbl : Char → Bool) (s : Service) (st : State)
    (principal : mstate.Unit) (hp : principal.IsPrincipal = false) :
    (∃ e, (s.AddUnitSubordinateTo tbl st principal).1 = .error e) ∧
    (s.AddUnitSubordinateTo tbl st principal).2.units = st.units ∧
    (∀ ch st1, s.Charm tbl st = (.ok ch, st1) →
      (∃ e, (s.AddUnitSubordinateTo tbl st principal).1 = .error e ∧
        isConstraintViolation e = true) ∧
      (ch.Meta.Subordinate = true → (s.AddUnitSubordinateTo tbl st principal).1 =
        .error "a subordinate unit must be added to a principal unit")) := by
  have hf := (Charm_sameData tbl s st).2.1
  rcases hch : s.Charm tbl st with ⟨r, st1⟩
  rw [hch] at hf
  simp only at hf
  cases r with
  | error c =>
    refine ⟨?_, ?_, ?_⟩
    · simp [Service.AddUnitSubordinateTo, hch]
    · simp [Service.AddUnitSubordinateTo, hch, hf]
    · intro ch st2 h; simp at h
  | ok ch =>
    cases hsub : ch.Meta.Subordinate with
    | false =>
      have hmsg := AddUnitSubordinateTo_principal_message tbl s st st1 ch principal hch hsub
      rw [hmsg]
      refine ⟨⟨_, rfl⟩, hf, ?_⟩
      intro ch2 st2 h
      simp only [Prod.mk.injEq, Except.ok.injEq] at h
      obtain ⟨rfl, rfl⟩ := h
      refine ⟨⟨_, rfl, ?_⟩, by simp [hsub]⟩
      simp only [String.append_assoc]
      exact isConstraintViolation_principal_service _
    | true =>
      have hmsg : (s.AddUnitSubordinateTo tbl st principal).1 =
          .error "a subordinate unit must be added to a principal unit" := by
        simp [Service.AddUnitSubordinateTo, hch, hsub, hp]
      refine ⟨⟨_, hmsg⟩, ?_, ?_⟩
      · simp [Service.AddUnitSubordinateTo, hch, hsub, hp, hf]
      · intro ch2 st2 h
        exact ⟨⟨_, hmsg, by decide⟩, fun _ => hmsg⟩

theorem AddUnitSubordinateTo_non_principal_fails_witness :
    (∃ e, (logging.AddUnitSubordinateTo exampleTable exampleStore ⟨"logging/0", "logging", false⟩).1 =
      .error e) ∧
    (logging.AddUnitSubordinateTo exampleTable exampleStore ⟨"logging/0", "logging", false⟩).2.units =
      exampleStore.units ∧
    (logging.AddUnitSubordinateTo exampleTable exampleStore ⟨"logging/0", "logging", false⟩).1 =
      .error "a subordinate unit must be added to a principal unit" :=
  have h := AddUnitSubordinateTo_non_principal_fails exampleTable logging exampleStore
    ⟨"logging/0", "logging", false⟩ (by decide)
  ⟨h.1, h.2.1, (h.2.2 ⟨exampleURL "logging", ⟨true⟩⟩ exampleStore (by decide)).2 (by decide)⟩

/-! ## Names are never empty -/

theorem unitName_ne_empty (n : string) (k : Nat) : unitName n k ≠ "" := by
  intro h
  have hd := congrArg String.data h
  simp [unitName, String.data_append] at hd

/-! ## RemoveUnit -/

theorem Errorf_remove_unit (tbl : Char → Bool) (a b : string) :
    fmt.Errorf tbl "can't remove unit %q: %v" [a, b] =
      "can't remove unit " ++ strconv.Quote tbl a ++ ": " ++ b := by
  have h : fmt.Errorf tbl "can't remove unit %q: %v" [a, b] =
      "can't remove unit " ++ (strconv.Quote tbl a ++ (": " ++ (b ++ ""))) := rfl
  rw [h, String.append_empty]
  simp only [String.append_assoc]

theorem removeUnit_outcome (st : State) (name svc : string) :
    (st.removeUnit name svc).2.services = st.services ∧
    (st.removeUnit name svc).2.charms = st.charms ∧
    (st.removeUnit name svc).2.sequences = st.sequences ∧
    (((∃ c, (st.removeUnit name svc).1 = some c ∧
        (st.roundTrip.1 = none → c = mgo.ErrNotFound ∧
          ∀ x ∈ st.units, ¬ (x.Name = name ∧ x.ServiceName = svc))) ∧
      (st.removeUnit name svc).2.units = st.units) ∨
     ((st.removeUnit name svc).1 = none ∧
      ∃ l1 d l2, st.units = l1 ++ d :: l2 ∧ (st.removeUnit name svc).2.units = l1 ++ l2 ∧
        d.Name = name ∧ d.ServiceName = svc)) := by
  obtain ⟨h1, h2, h3, h4⟩ := roundTrip_sameData st
  unfold State.removeUnit
  split
  · next c st1 h => rw [h] at h1 h2 h3 h4; simp_all
  · next st1 h =>
    rw [h] at h1 h2 h3 h4
    simp only at h1 h2 h3 h4
    split
    · next hany =>
      rw [h2] at hany
      simp only [List.any_eq_true] at hany
      obtain ⟨x, hx, hsel⟩ := hany
      obtain ⟨d, l1, l2, -, hd, hl, he⟩ := List.exists_of_eraseP hx hsel
      simp only [unitSel, Bool.and_eq_true, decide_eq_true_eq] at hd
      refine ⟨h1, h3, h4, Or.inr ⟨rfl, l1, d, l2, hl, ?_, hd.1, hd.2⟩⟩
      simp only [h2]
      exact he
    · next hany =>
      rw [h2] at hany
      simp only [List.any_eq_true, unitSel, Bool.and_eq_true, decide_eq_true_eq, not_exists,
        not_and] at hany
      refine ⟨h1, h3, h4, Or.inl ⟨⟨mgo.ErrNotFound, rfl, fun _ => ⟨rfl, ?_⟩⟩, h2⟩⟩
      intro x hx hc
      exact hany x hx hc.1 hc.2

/-- C5: RemoveUnit either fails and leaves the units collection as it was, or succeeds
and deletes exactly one record, whose _id is the unit's name and whose servicename is
the service's name, every other record staying in place; the other collections are never
touched.  When the record named like the unit belongs to another service (unit ids being
unique), the call returns an error, the no-match error of the store when the store
answers, and the units collection is unchanged. -/
theorem RemoveUnit_selective (tbl : Char → Bool) (s : Service) (u : mstate.Unit) (st : State) :
    (s.RemoveUnit tbl st u).2.services = st.services ∧
    (s.RemoveUnit tbl st u).2.charms = st.charms ∧
    (s.RemoveUnit tbl st u).2.sequences = st.sequences ∧
    (((∃ e, (s.RemoveUnit tbl st u).1 = some e) ∧ (s.RemoveUnit tbl st u).2.units = st.units) ∨
     ((s.RemoveUnit tbl st u).1 = none ∧
      ∃ l1 d l2, st.units = l1 ++ d :: l2 ∧ (s.RemoveUnit tbl st u).2.units = l1 ++ l2 ∧
        d.Name = u.name ∧ d.ServiceName = s.name)) ∧
    (uniqueUnitIds st → ∀ d ∈ st.units, d.Name = u.name → d.ServiceName ≠ s.name →
      (∃ e, (s.RemoveUnit tbl st u).1 = some e) ∧ (s.RemoveUnit tbl st u).2.units = st.units ∧
      (st.roundTrip.1 = none → (s.RemoveUnit tbl st u).1 =
        some ("can't remove unit " ++ strconv.Quote tbl u.name ++ ": " ++ mgo.ErrNotFound))) := by
  obtain ⟨h1, h2, h3, h4⟩ := removeUnit_outcome st u.name s.name
  obtain ⟨r, st1, hr⟩ : ∃ r st1, st.removeUnit u.name s.name = (r, st1) := ⟨_, _, rfl⟩
  rw [hr] at h1 h2 h3 h4
  simp only at h1 h2 h3 h4
  have hrem : s.RemoveUnit tbl st u =
      (r.map (fun err => fmt.Errorf tbl "can't remove unit %q: %v" [u.String, err]), st1) := by
    unfold Service.RemoveUnit
    rw [hr]
    cases r <;> rfl
  rw [hrem]
  refine ⟨h1, h2, h3, ?_, ?_⟩
  · rcases h4 with ⟨⟨c, hc, -⟩, hu⟩ | ⟨hn, hex⟩
    · left; subst hc; exact ⟨⟨_, rfl⟩, hu⟩
    · right; subst hn; exact ⟨rfl, hex⟩
  · intro huniq d hd hname hsvc
    have hnomatch : ∀ x ∈ st.units, ¬ (x.Name = u.name ∧ x.ServiceName = s.name) := by
      intro x hx hc
      have hxd : x = d :=
        List.inj_on_of_nodup_map huniq hx hd (hc.1.trans hname.symm)
      exact hsvc (hxd ▸ hc.2)
    rcases h4 with ⟨⟨c, hc, hnf⟩, hu⟩ | ⟨-, l1, x, l2, hl, -, hx1, hx2⟩
    · subst hc
      refine ⟨⟨_, rfl⟩, hu, ?_⟩
      intro hans
      rw [(hnf hans).1]
      simp [Errorf_remove_unit tbl, Unit.String, Unit.Name]
    · exact absurd ⟨hx1, hx2⟩ (hnomatch x (by rw [hl]; simp))

theorem RemoveUnit_selective_witness :
    (∃ e, (wordpress.RemoveUnit exampleTable fourUnitsStore ⟨"mysql/0", "mysql", true⟩).1 = some e) ∧
    (wordpress.RemoveUnit exampleTable fourUnitsStore ⟨"mysql/0", "mysql", true⟩).2.units =
      fourUnitsStore.units ∧
    (wordpress.RemoveUnit exampleTable fourUnitsStore ⟨"mysql/0", "mysql", true⟩).1 =
      some ("can't remove unit " ++ strconv.Quote exampleTable "mysql/0" ++ ": " ++ mgo.ErrNotFound) :=
  have h := (RemoveUnit_selective exampleTable wordpress ⟨"mysql/0", "mysql", true⟩ fourUnitsStore).2.2.2.2
    (by decide) ⟨"mysql/0", "mysql", true⟩ (by decide) (by decide) (by decide)
  ⟨h.1, h.2.1, h.2.2 (by decide)⟩

/-! ## SetCharmURL and CharmURL -/

theorem setCharmURL_none (id : string) (url : Option charm.URL) (l : List serviceDoc) :
    setCharmURL id url l = none ↔ ∀ d ∈ l, d.Name ≠ id := by
  induction l with
  | nil => simp [setCharmURL]
  | cons d ds ih =>
    unfold setCharmURL
    by_cases h : d.Name = id
    · simp [h]
    · simp [h, ih]

theorem setCharmURL_find (id : string) (url : Option charm.URL) (l l1 : List serviceDoc)
    (h : setCharmURL id url l = some l1) :
    ∃ d, l1.find? (fun d => decide (d.Name = id)) = some d ∧ d.CharmURL = url := by
  induction l generalizing l1 with
  | nil => simp [setCharmURL] at h
  | cons d ds ih =>
    unfold setCharmURL at h
    by_cases hd : d.Name = id
    · simp only [hd, if_true, Option.some.injEq] at h
      subst h
      exact ⟨{ d with CharmURL := url }, by simp [List.find?, hd], rfl⟩
    · simp only [hd, if_false, Option.map_eq_some'] at h
      obtain ⟨l2, hl2, rfl⟩ := h
      obtain ⟨x, hx, hu⟩ := ih l2 hl2
      exact ⟨x, by simp [List.find?, hd, hx], hu⟩

theorem find_none_of_forall_ne (id : string) (l : List serviceDoc)
    (h : ∀ d ∈ l, d.Name ≠ id) : l.find? (fun d => decide (d.Name = id)) = none := by
  simp only [List.find?_eq_none, decide_eq_true_eq]
  exact h

/-- C6 (as stated, refuted): on a store with no document for the service, SetCharmURL
fails with the store's not-found error and the following CharmURL fails too, so it does
not return the URL that was set. -/
theorem SetCharmURL_without_document_fails :
    (wordpress.SetCharmURL exampleTable emptyStore (some (exampleURL "wordpress"))).1 =
      some "can't set the charm URL of service \"wordpress\": not found" ∧
    (wordpress.CharmURL exampleTable (wordpress.SetCharmURL exampleTable emptyStore (some (exampleURL "wordpress"))).2).1 =
      .error "can't get the charm URL of service \"wordpress\": not found" ∧
    (wordpress.CharmURL exampleTable (wordpress.SetCharmURL exampleTable emptyStore (some (exampleURL "wordpress"))).2).1 ≠
      .ok (some (exampleURL "wordpress")) := by
  decide

/-- C6 (amended): when a document for the service exists and the store answers,
SetCharmURL(u) succeeds; whenever SetCharmURL(u) has succeeded and the store answers the
next query, the following CharmURL() returns u; when no document for the service exists,
SetCharmURL(u) returns an error, leaves the services collection as it was, and the
following CharmURL() fails as well. -/
theorem SetCharmURL_then_CharmURL (tbl : Char → Bool)
    (s : Service) (st : State) (url : Option charm.URL) :
    ((∃ d ∈ st.services, d.Name = s.name) → st.roundTrip.1 = none →
      (s.SetCharmURL tbl st url).1 = none) ∧
    ((s.SetCharmURL tbl st url).1 = none → (s.SetCharmURL tbl st url).2.roundTrip.1 = none →
      (s.CharmURL tbl (s.SetCharmURL tbl st url).2).1 = .ok url) ∧
    ((∀ d ∈ st.services, d.Name ≠ s.name) →
      (∃ e, (s.SetCharmURL tbl st url).1 = some e) ∧
      (s.SetCharmURL tbl st url).2.services = st.services ∧
      ∃ e, (s.CharmURL tbl (s.SetCharmURL tbl st url).2).1 = .error e) := by
  obtain ⟨h1, -, -, -⟩ := roundTrip_sameData st
  obtain ⟨f, st1, hrt⟩ : ∃ f st1, st.roundTrip = (f, st1) := ⟨_, _, rfl⟩
  rw [hrt] at h1
  simp only at h1
  have hcharm : ∀ st2 : State, st2.roundTrip.1 = none →
      (s.CharmURL tbl st2).1 = match st2.services.find? (fun d => decide (d.Name = s.name)) with
        | some d => .ok d.CharmURL
        | none => .error (fmt.Errorf tbl "can't get the charm URL of service %q: %v"
            [s.String, mgo.ErrNotFound]) := by
    intro st2 h2
    obtain ⟨g1, -, -, -⟩ := roundTrip_sameData st2
    obtain ⟨f2, st3, hrt2⟩ : ∃ f st1, st2.roundTrip = (f, st1) := ⟨_, _, rfl⟩
    rw [hrt2] at h2 g1
    simp only at h2 g1
    subst h2
    unfold Service.CharmURL State.findService
    rw [hrt2]
    simp only [g1]
    cases st2.services.find? (fun d => decide (d.Name = s.name)) <;> rfl
  have hcharm_err : ∀ st2 : State, (∀ d ∈ st2.services, d.Name ≠ s.name) →
      ∃ e, (s.CharmURL tbl st2).1 = .error e := by
    intro st2 hno
    obtain ⟨g1, -, -, -⟩ := roundTrip_sameData st2
    obtain ⟨f2, st3, hrt2⟩ : ∃ f st1, st2.roundTrip = (f, st1) := ⟨_, _, rfl⟩
    rw [hrt2] at g1
    simp only at g1
    unfold Service.CharmURL State.findService
    rw [hrt2]
    cases f2 with
    | some c => exact ⟨_, rfl⟩
    | none =>
      simp only [g1, find_none_of_forall_ne s.name st2.services hno]
      exact ⟨_, rfl⟩
  cases f with
  | some c =>
    have hset : s.SetCharmURL tbl st url =
        (some (fmt.Errorf tbl "can't set the charm URL of service %q: %v" [s.String, c]), st1) := by
      unfold Service.SetCharmURL State.updateService
      rw [hrt]
    rw [hset]
    refine ⟨fun _ h => by simp [hrt] at h, fun h => by simp at h, fun hno => ⟨⟨_, rfl⟩, h1, ?_⟩⟩
    exact hcharm_err st1 (by rw [h1]; exact hno)
  | none =>
    cases hs : setCharmURL s.name url st.services with
    | none =>
      have hno := (setCharmURL_none s.name url st.services).1 hs
      have hset : s.SetCharmURL tbl st url =
          (some (fmt.Errorf tbl "can't set the charm URL of service %q: %v"
            [s.String, mgo.ErrNotFound]), st1) := by
        unfold Service.SetCharmURL State.updateService
        rw [hrt]
        simp only [h1, hs]
      rw [hset]
      refine ⟨fun ⟨d, hd, hn⟩ _ => absurd hn (hno d hd), fun h => by simp at h,
        fun _ => ⟨⟨_, rfl⟩, h1, ?_⟩⟩
      exact hcharm_err st1 (by rw [h1]; exact hno)
    | some svcs =>
      have hset : s.SetCharmURL tbl st url = (none, { st1 with services := svcs }) := by
        unfold Service.SetCharmURL State.updateService
        rw [hrt]
        simp only [h1, hs]
      rw [hset]
      refine ⟨fun _ _ => rfl, fun _ hans => ?_, fun hno => ?_⟩
      · rw [hcharm _ hans]
        obtain ⟨d, hd, hu⟩ := setCharmURL_find s.name url st.services svcs hs
        simp only [hd, hu]
      · rw [(setCharmURL_none s.name url st.services).2 hno] at hs
        simp at hs

theorem SetCharmURL_then_CharmURL_witness :
    (wordpress.SetCharmURL exampleTable exampleStore (some (exampleURL "wordpress-2"))).1 = none ∧
    (wordpress.CharmURL exampleTable (wordpress.SetCharmURL exampleTable exampleStore
      (some (exampleURL "wordpress-2"))).2).1 = .ok (some (exampleURL "wordpress-2")) ∧
    ((∃ e, (wordpress.SetCharmURL exampleTable emptyStore (some (exampleURL "wordpress-2"))).1 = some e) ∧
      (wordpress.SetCharmURL exampleTable emptyStore (some (exampleURL "wordpress-2"))).2.services =
        emptyStore.services ∧
      ∃ e, (wordpress.CharmURL exampleTable (wordpress.SetCharmURL exampleTable emptyStore
        (some (exampleURL "wordpress-2"))).2).1 = .error e) :=
  ⟨(SetCharmURL_then_CharmURL exampleTable wordpress exampleStore (some (exampleURL "wordpress-2"))).1
      ⟨⟨"wordpress", some (exampleURL "wordpress")⟩, by decide, by decide⟩ (by decide),
   (SetCharmURL_then_CharmURL exampleTable wordpress exampleStore (some (exampleURL "wordpress-2"))).2.1
      (by decide) (by decide),
   (SetCharmURL_then_CharmURL exampleTable wordpress emptyStore (some (exampleURL "wordpress-2"))).2.2
      (by decide)⟩

/-! ## AllUnits and Unit -/

theorem Errorf_get_unit (tbl : Char → Bool) (a b c : string) :
    fmt.Errorf tbl "can't get unit %q from service %q: %v" [a, b, c] =
      "can't get unit " ++ strconv.Quote tbl a ++ " from service " ++ strconv.Quote tbl b ++ ": " ++ c := by
  have h : fmt.Errorf tbl "can't get unit %q from service %q: %v" [a, b, c] =
      "can't get unit " ++ (strconv.Quote tbl a ++ (" from service " ++ (strconv.Quote tbl b ++
        (": " ++ (c ++ ""))))) := rfl
  rw [h, String.append_empty]
  simp only [String.append_assoc]

theorem AllUnits_ok (tbl : Char → Bool) (s : Service) (st : State) (h : st.roundTrip.1 = none) :
    s.AllUnits tbl st = (.ok ((st.units.filter (fun d => decide (d.ServiceName = s.name))).map
      (fun v => ⟨v.Name, s.name, v.IsPrincipal⟩)), st.roundTrip.2) := by
  obtain ⟨-, h2, -, -⟩ := roundTrip_sameData st
  obtain ⟨f, st1, hrt⟩ : ∃ f st1, st.roundTrip = (f, st1) := ⟨_, _, rfl⟩
  rw [hrt] at h h2 ⊢
  simp only at h h2
  subst h
  unfold Service.AllUnits State.findUnits
  rw [hrt]
  simp only [h2]

theorem AllUnits_fault (tbl : Char → Bool)
    (s : Service) (st : State) (c : string) (h : st.roundTrip.1 = some c) :
    s.AllUnits tbl st =
      (.error (fmt.Errorf tbl "can't get all units from service %q: %v" [c]), st.roundTrip.2) := by
  obtain ⟨f, st1, hrt⟩ : ∃ f st1, st.roundTrip = (f, st1) := ⟨_, _, rfl⟩
  rw [hrt] at h ⊢
  simp only at h
  subst h
  unfold Service.AllUnits State.findUnits
  rw [hrt]

/-- C7: whenever AllUnits succeeds, the records of the units it returns are exactly the
unit records whose servicename is the service's name, one unit per record with that
record's name and isPrincipal flag: a unit is returned if and only if it is built from
such a record, every returned unit belongs to the service, and the returned names are
pairwise distinct when unit ids are unique.  AllUnits does succeed when the store
answers.  After wordpress/0, wordpress/1, wordpress/2 and one mysql unit were added,
wordpress.AllUnits() is the three wordpress units. -/
theorem AllUnits_exact (tbl : Char → Bool) :
    (∀ (s : Service) (st : State) (us : List mstate.Unit), (s.AllUnits tbl st).1 = .ok us →
      us.map Unit.doc = st.units.filter (fun d => decide (d.ServiceName = s.name)) ∧
      (∀ u, u ∈ us ↔
        ∃ d ∈ st.units, d.ServiceName = s.name ∧ u = ⟨d.Name, s.name, d.IsPrincipal⟩) ∧
      (∀ u ∈ us, u.serviceName = s.name) ∧
      (uniqueUnitIds st → (us.map Unit.Name).Nodup)) ∧
    (∀ (s : Service) (st : State), st.roundTrip.1 = none → ∃ us, (s.AllUnits tbl st).1 = .ok us) ∧
    (fourUnitsStore.units.map (fun d => d.Name) =
        ["wordpress/0", "wordpress/1", "mysql/0", "wordpress/2"] ∧
      (wordpress.AllUnits exampleTable fourUnitsStore).1 = .ok [⟨"wordpress/0", "wordpress", true⟩,
        ⟨"wordpress/1", "wordpress", true⟩, ⟨"wordpress/2", "wordpress", true⟩]) := by
  refine ⟨?_, ?_, by decide⟩
  · intro s st us h
    cases hf : st.roundTrip.1 with
    | some c => rw [AllUnits_fault tbl s st c hf] at h; simp at h
    | none =>
      rw [AllUnits_ok tbl s st hf] at h
      simp only [Except.ok.injEq] at h
      subst h
      refine ⟨?_, ?_, ?_, ?_⟩
      · rw [List.map_map]
        conv_rhs => rw [← List.map_id (List.filter _ _)]
        apply List.map_congr_left
        intro d hd
        have := (List.mem_filter.1 hd).2
        simp only [decide_eq_true_eq] at this
        cases d
        simp_all [Unit.doc]
      · intro u
        simp only [List.mem_map, List.mem_filter, decide_eq_true_eq]
        constructor
        · rintro ⟨d, ⟨hd, hs⟩, rfl⟩
          exact ⟨d, hd, hs, rfl⟩
        · rintro ⟨d, hd, hs, rfl⟩
          exact ⟨d, ⟨hd, hs⟩, rfl⟩
      · intro u hu
        simp only [List.mem_map] at hu
        obtain ⟨d, -, rfl⟩ := hu
        rfl
      · intro huniq
        rw [List.map_map]
        have hsub : ((st.units.filter (fun d => decide (d.ServiceName = s.name))).map
            (fun d => d.Name)).Sublist (st.units.map (fun d => d.Name)) :=
          (List.filter_sublist _).map _
        exact hsub.nodup huniq
  · intro s st h
    exact ⟨_, by rw [AllUnits_ok tbl s st h]⟩

theorem AllUnits_exact_witness :
    ([⟨"wordpress/0", "wordpress", true⟩, ⟨"wordpress/1", "wordpress", true⟩,
        ⟨"wordpress/2", "wordpress", true⟩] : List mstate.Unit).map Unit.doc =
      fourUnitsStore.units.filter (fun d => decide (d.ServiceName = wordpress.name)) ∧
    (([⟨"wordpress/0", "wordpress", true⟩, ⟨"wordpress/1", "wordpress", true⟩,
        ⟨"wordpress/2", "wordpress", true⟩] : List mstate.Unit).map Unit.Name).Nodup ∧
    (∃ us, (wordpress.AllUnits exampleTable fourUnitsStore).1 = .ok us) :=
  ⟨((AllUnits_exact exampleTable).1 wordpress fourUnitsStore _ (by decide)).1,
   ((AllUnits_exact exampleTable).1 wordpress fourUnitsStore _ (by decide)).2.2.2 (by decide),
   (AllUnits_exact exampleTable).2.1 wordpress fourUnitsStore (by decide)⟩

theorem Unit_answer (tbl : Char → Bool)
    (s : Service) (st : State) (n : string) (h : st.roundTrip.1 = none) :
    s.Unit tbl st n = match st.units.find? (unitSel n s.name) with
      | some d => (.ok ⟨n, s.name, d.IsPrincipal⟩, st.roundTrip.2)
      | none => (.error (fmt.Errorf tbl "can't get unit %q from service %q: %v"
          [n, s.name, mgo.ErrNotFound]), st.roundTrip.2) := by
  obtain ⟨-, h2, -, -⟩ := roundTrip_sameData st
  obtain ⟨f, st1, hrt⟩ : ∃ f st1, st.roundTrip = (f, st1) := ⟨_, _, rfl⟩
  rw [hrt] at h h2 ⊢
  simp only at h h2
  subst h
  unfold Service.Unit State.findUnit
  rw [hrt]
  simp only [h2]
  cases st.units.find? (unitSel n s.name) <;> rfl

theorem Unit_fault (tbl : Char → Bool)
    (s : Service) (st : State) (n c : string) (h : st.roundTrip.1 = some c) :
    s.Unit tbl st n = (.error (fmt.Errorf tbl "can't get unit %q from service %q: %v" [n, s.name, c]),
      st.roundTrip.2) := by
  obtain ⟨f, st1, hrt⟩ : ∃ f st1, st.roundTrip = (f, st1) := ⟨_, _, rfl⟩
  rw [hrt] at h ⊢
  simp only at h
  subst h
  unfold Service.Unit State.findUnit
  rw [hrt]

/-- C8: whenever Unit(n) succeeds, the units collection holds a record with _id n and
servicename the service's name, and the unit returned has name n, the service's name and
the isprincipal flag of such a record (of the record named n, when unit ids are unique).
On a store that answers the query, Unit(n) succeeds if and only if such a record exists,
and otherwise, no record having that name or the name belonging to another service, it
returns the not-found error and no unit.  The collections are left as they were. -/
theorem Unit_lookup (tbl : Char → Bool) (s : Service) (n : string) (st : State) :
    (∀ u, (s.Unit tbl st n).1 = .ok u → u.Name = n ∧ u.serviceName = s.name ∧
      (∃ d ∈ st.units, d.Name = n ∧ d.ServiceName = s.name ∧ u.IsPrincipal = d.IsPrincipal) ∧
      (uniqueUnitIds st → ∀ d ∈ st.units, d.Name = n → u.IsPrincipal = d.IsPrincipal)) ∧
    (st.roundTrip.1 = none →
      ((∃ u, (s.Unit tbl st n).1 = .ok u) ↔
        ∃ d ∈ st.units, d.Name = n ∧ d.ServiceName = s.name) ∧
      ((¬ ∃ d ∈ st.units, d.Name = n ∧ d.ServiceName = s.name) →
        (s.Unit tbl st n).1 = .error ("can't get unit " ++ strconv.Quote tbl n ++ " from service " ++
          strconv.Quote tbl s.name ++ ": " ++ mgo.ErrNotFound))) ∧
    (s.Unit tbl st n).2.sameData st := by
  have hsame := roundTrip_sameData st
  cases hanswer : st.roundTrip.1 with
  | some c =>
    rw [Unit_fault tbl s st n c hanswer]
    refine ⟨fun u h => by simp at h, fun h => by simp at h, hsame⟩
  | none =>
    rw [Unit_answer tbl s st n hanswer]
    cases hfind : st.units.find? (unitSel n s.name) with
    | none =>
      have hno : ¬ ∃ d ∈ st.units, d.Name = n ∧ d.ServiceName = s.name := by
        rintro ⟨d, hd, h1, h2⟩
        have := List.find?_eq_none.1 hfind d hd
        simp [unitSel, h1, h2] at this
      refine ⟨fun u h => by simp at h, fun _ => ⟨?_, fun _ => ?_⟩, hsame⟩
      · simp only [hno, iff_false, not_exists]
        intro u h
        simp at h
      · simp [Errorf_get_unit tbl]
    | some d =>
      have hmem : d ∈ st.units := List.mem_of_find?_eq_some hfind
      have hsel := List.find?_some hfind
      simp only [unitSel, Bool.and_eq_true, decide_eq_true_eq] at hsel
      have hex : ∃ d ∈ st.units, d.Name = n ∧ d.ServiceName = s.name :=
        ⟨d, hmem, hsel.1, hsel.2⟩
      refine ⟨?_, fun _ => ⟨?_, fun h => absurd hex h⟩, hsame⟩
      · intro u h
        simp only [Except.ok.injEq] at h
        subst h
        refine ⟨rfl, rfl, ⟨d, hmem, hsel.1, hsel.2, rfl⟩, ?_⟩
        intro huniq x hx hxn
        have hxd : x = d := List.inj_on_of_nodup_map huniq hx hmem (hxn.trans hsel.1.symm)
        rw [hxd]
        rfl
      · simp only [hex, iff_true]
        exact ⟨_, rfl⟩

theorem Unit_lookup_witness :
    ((∃ u, (wordpress.Unit exampleTable fourUnitsStore "wordpress/1").1 = .ok u) ↔
      ∃ d ∈ fourUnitsStore.units, d.Name = "wordpress/1" ∧ d.ServiceName = wordpress.name) ∧
    (wordpress.Unit exampleTable fourUnitsStore "mysql/0").1 =
      .error ("can't get unit " ++ strconv.Quote exampleTable "mysql/0" ++ " from service " ++
        strconv.Quote exampleTable wordpress.name ++ ": " ++ mgo.ErrNotFound) ∧
    ((⟨"wordpress/1", "wordpress", true⟩ : mstate.Unit).Name = "wordpress/1" ∧
      (⟨"wordpress/1", "wordpress", true⟩ : mstate.Unit).serviceName = wordpress.name ∧
      (⟨"wordpress/1", "wordpress", true⟩ : mstate.Unit).IsPrincipal =
        (⟨"wordpress/1", "wordpress", true⟩ : unitDoc).IsPrincipal) :=
  ⟨((Unit_lookup exampleTable wordpress "wordpress/1" fourUnitsStore).2.1 (by decide)).1,
   ((Unit_lookup exampleTable wordpress "mysql/0" fourUnitsStore).2.1 (by decide)).2 (by decide),
   have h := (Unit_lookup exampleTable wordpress "wordpress/1" fourUnitsStore).1
     ⟨"wordpress/1", "wordpress", true⟩ (by decide)
   ⟨h.1, h.2.1, h.2.2.2 (by decide) ⟨"wordpress/1", "wordpress", true⟩ (by decide) rfl⟩⟩

/-! ## Error context -/

/-- C9 (the code at the failing input): when the store cannot be reached, AllUnits on
wordpress returns a message in which the quoted cause stands where the service name was
meant to be, followed by the marker of a missing operand: the service name does not
occur in it.  AddUnit on a service whose charm is missing does the same, while Unit, on
the same unreachable store, names the unit, the service and the cause. -/
theorem AllUnits_error_omits_service_name :
    (wordpress.AllUnits exampleTable unreachableStore).1 =
      .error "can't get all units from service \"EOF\": %!v(MISSING)" ∧
    ¬ occursIn "wordpress" "can't get all units from service \"EOF\": %!v(MISSING)" ∧
    (wordpress.AddUnit exampleTable { exampleStore with charms := [] }).1 =
      .error "can't add unit to service \"not found\": %!v(MISSING)" ∧
    ¬ occursIn "wordpress" "can't add unit to service \"not found\": %!v(MISSING)" ∧
    (wordpress.Unit exampleTable unreachableStore "wordpress/0").1 =
      .error "can't get unit \"wordpress/0\" from service \"wordpress\": EOF" := by
  decide

/-! ## Unit names -/

theorem toDigitsCore_eq_digits (fuel n : Nat) (acc : List Char) (hpos : 0 < n) (hlt : n < fuel) :
    Nat.toDigitsCore 10 fuel n acc = (Nat.digits 10 n).reverse.map Nat.digitChar ++ acc := by
  induction fuel generalizing n acc with
  | zero => omega
  | succ fuel ih =>
    have hd : Nat.digits 10 n = (n % 10) :: Nat.digits 10 (n / 10) :=
      Nat.digits_def' (by norm_num) hpos
    unfold Nat.toDigitsCore
    by_cases h0 : n / 10 = 0
    · simp [h0, hd]
    · simp only [h0, if_false]
      rw [ih (n / 10) _ (Nat.pos_of_ne_zero h0) (by omega), hd]
      simp

theorem digitChar_toNat (d : Nat) (h : d < 10) : (Nat.digitChar d).toNat - 48 = d := by
  interval_cases d <;> rfl

theorem digitChar_ne_slash (d : Nat) (h : d < 10) : Nat.digitChar d ≠ '/' := by
  interval_cases d <;> decide

theorem decodeDecimal_toDigits (n : Nat) : decodeDecimal (Nat.toDigits 10 n) = n := by
  rcases Nat.eq_zero_or_pos n with rfl | hpos
  · rfl
  · unfold Nat.toDigits decodeDecimal
    rw [toDigitsCore_eq_digits (n + 1) n [] hpos (by omega)]
    simp only [List.append_nil, List.map_map, List.map_reverse, List.reverse_reverse]
    have : (Nat.digits 10 n).map ((fun c => c.toNat - 48) ∘ Nat.digitChar) = Nat.digits 10 n := by
      conv_rhs => rw [← List.map_id (Nat.digits 10 n)]
      apply List.map_congr_left
      intro d hd
      exact digitChar_toNat d (Nat.digits_lt_base (by norm_num) hd)
    rw [this, Nat.ofDigits_digits]

theorem Itoa_injective (a b : Nat) (h : strconv.Itoa a = strconv.Itoa b) : a = b := by
  unfold strconv.Itoa at h
  injection h with h
  have := congrArg decodeDecimal h
  rwa [decodeDecimal_toDigits, decodeDecimal_toDigits] at this

theorem Itoa_no_slash (n : Nat) : '/' ∉ (strconv.Itoa n).data := by
  unfold strconv.Itoa
  simp only
  rcases Nat.eq_zero_or_pos n with rfl | hpos
  · decide
  · unfold Nat.toDigits
    rw [toDigitsCore_eq_digits (n + 1) n [] hpos (by omega)]
    simp only [List.append_nil, List.mem_map, List.mem_reverse, not_exists, not_and]
    intro d hd
    exact digitChar_ne_slash d (Nat.digits_lt_base (by norm_num) hd)

theorem append_cons_cancel (c : Char) (z1 z2 x1 x2 : List Char) (h1 : c ∉ z1) (h2 : c ∉ z2)
    (h : z1 ++ c :: x1 = z2 ++ c :: x2) : z1 = z2 ∧ x1 = x2 := by
  induction z1 generalizing z2 with
  | nil =>
    cases z2 with
    | nil => simpa using h
    | cons b z2 =>
      simp only [List.nil_append, List.cons_append, List.cons.injEq] at h
      simp [h.1] at h2
  | cons a z1 ih =>
    cases z2 with
    | nil =>
      simp only [List.nil_append, List.cons_append, List.cons.injEq] at h
      simp [h.1] at h1
    | cons b z2 =>
      simp only [List.cons_append, List.cons.injEq] at h
      simp only [List.mem_cons, not_or] at h1 h2
      obtain ⟨rfl, ht⟩ := ih z2 h1.2 h2.2 h.2
      exact ⟨by rw [h.1], ht⟩

theorem unitName_data (n : string) (k : Nat) :
    (unitName n k).data = n.data ++ '/' :: (strconv.Itoa k).data := by
  simp [unitName, String.data_append]

/-- A unit name determines the service name and the sequence number it was built from. -/
theorem unitName_injective (n1 n2 : string) (k1 k2 : Nat) (h : unitName n1 k1 = unitName n2 k2) :
    n1 = n2 ∧ k1 = k2 := by
  have hd := congrArg String.data h
  rw [unitName_data, unitName_data] at hd
  have hr := congrArg List.reverse hd
  simp only [List.reverse_append, List.reverse_cons, List.append_assoc, List.singleton_append]
    at hr
  obtain ⟨hk, hn⟩ := append_cons_cancel '/' _ _ _ _
    (by simpa using Itoa_no_slash k1) (by simpa using Itoa_no_slash k2) hr
  have hn' : n1.data = n2.data := List.reverse_injective hn
  have hk' : (strconv.Itoa k1).data = (strconv.Itoa k2).data := List.reverse_injective hk
  exact ⟨String.ext hn', Itoa_injective k1 k2 (String.ext hk')⟩

/-! ## Sequence counters -/

theorem counter_increment_self (key : string) (l : List sequenceDoc) :
    counter key (increment key l) = counter key l + 1 := by
  induction l with
  | nil => simp [counter, increment]
  | cons d ds ih =>
    unfold increment
    by_cases h : d.Name = key
    · simp [counter, List.find?, h]
    · simp only [h, if_false]
      unfold counter at ih ⊢
      simp only [List.find?, h, decide_False]
      exact ih

theorem counter_increment_other (key m : string) (l : List sequenceDoc) (hne : m ≠ key) :
    counter m (increment key l) = counter m l := by
  induction l with
  | nil => simp [counter, increment, List.find?, Ne.symm hne]
  | cons d ds ih =>
    unfold increment
    by_cases h : d.Name = key
    · have hm : ¬ d.Name = m := fun hm => hne (hm.symm.trans h)
      simp [counter, List.find?, h, hm, Ne.symm hne]
    · simp only [h, if_false]
      unfold counter at ih ⊢
      by_cases hm : d.Name = m
      · simp [List.find?, hm]
      · simp only [List.find?, hm, decide_False]
        exact ih

/-! ## Sequences of calls -/

theorem AddUnit_outcome (tbl : Char → Bool)
    (s : Service) (st : State) : addOutcome s true st (s.AddUnit tbl st) := by
  have hs := Charm_sameData tbl s st
  have hf := Charm_reliable tbl s st
  obtain ⟨r, st1, hch⟩ : ∃ r st1, s.Charm tbl st = (r, st1) := ⟨_, _, rfl⟩
  rw [hch] at hs hf
  cases r with
  | error c =>
    rw [AddUnit_charm_error tbl s st st1 c hch]
    exact addOutcome_of_error s true st st1 _ hs hf
  | ok ch =>
    rw [AddUnit_charm_ok tbl s st st1 ch hch]
    cases hsub : ch.Meta.Subordinate with
    | true =>
      simp only [if_true]
      exact addOutcome_of_error s true st st1 _ hs hf
    | false =>
      simp only [Bool.false_eq_true, if_false]
      have h := addUnit_outcome tbl s st1 ""
      simp only [decide_True] at h
      exact addOutcome_of_sameData s true st st1 _ hs hf h

theorem AddUnitSubordinateTo_outcome (tbl : Char → Bool)
    (s : Service) (st : State) (p : mstate.Unit) :
    addOutcome s (decide (p.name = "")) st (s.AddUnitSubordinateTo tbl st p) := by
  have hs := Charm_sameData tbl s st
  have hf := Charm_reliable tbl s st
  obtain ⟨r, st1, hch⟩ : ∃ r st1, s.Charm tbl st = (r, st1) := ⟨_, _, rfl⟩
  rw [hch] at hs hf
  cases r with
  | error c =>
    rw [AddUnitSubordinateTo_charm_error tbl s st st1 c p hch]
    exact addOutcome_of_error s _ st st1 _ hs hf
  | ok ch =>
    rw [AddUnitSubordinateTo_charm_ok tbl s st st1 ch p hch]
    cases hsub : ch.Meta.Subordinate with
    | false =>
      simp only [Bool.not_false, if_true]
      exact addOutcome_of_error s _ st st1 _ hs hf
    | true =>
      cases hp : p.IsPrincipal with
      | false =>
        simp only [Bool.not_true, Bool.false_eq_true, if_false, Bool.not_false, if_true]
        exact addOutcome_of_error s _ st st1 _ hs hf
      | true =>
        simp only [Bool.not_true, Bool.false_eq_true, if_false]
        exact addOutcome_of_sameData s _ st st1 _ hs hf (addUnit_outcome tbl s st1 p.name)

theorem RemoveUnit_outcome (tbl : Char → Bool) (s : Service) (st : State) (u : mstate.Unit) :
    (s.RemoveUnit tbl st u).2.sequences = st.sequences ∧
    (s.RemoveUnit tbl st u).2.units.Sublist st.units ∧
    (st.faults = [] → (s.RemoveUnit tbl st u).2.faults = []) ∧
    (s.RemoveUnit tbl st u).2.services = st.services ∧
    (s.RemoveUnit tbl st u).2.charms = st.charms := by
  obtain ⟨h1, h2, h3, h4⟩ := removeUnit_outcome st u.name s.name
  have hstate : (s.RemoveUnit tbl st u).2 = (st.removeUnit u.name s.name).2 := by
    unfold Service.RemoveUnit
    split <;> next h => rw [h]
  rw [hstate]
  refine ⟨h3, ?_, ?_, h1, h2⟩
  · rcases h4 with ⟨-, hu⟩ | ⟨-, l1, d, l2, hl, hr, -⟩
    · rw [hu]
    · rw [hl, hr]
      exact List.Sublist.append (List.Sublist.refl l1) (List.sublist_cons_self d l2)
  · intro hf
    unfold State.removeUnit
    rw [roundTrip_reliable st hf]
    simp only
    split <;> exact hf

/-- What one call does to the counters, the units collection and the fault schedule. -/
theorem run_outcome (tbl : Char → Bool) (c : Call) (st : State) :
    ((c.run tbl st).2.services = st.services ∧ (c.run tbl st).2.charms = st.charms ∧
      (st.faults = [] → (c.run tbl st).2.faults = [])) ∧
    (((c.run tbl st).1 = none ∧ (c.run tbl st).2.sequences = st.sequences ∧
        (c.run tbl st).2.units.Sublist st.units) ∨
     ((c.run tbl st).1 = none ∧
        (c.run tbl st).2.sequences = increment c.service.name st.sequences ∧
        (c.run tbl st).2.units = st.units ∧
        (st.faults = [] → ∃ x ∈ st.units,
          x.Name = unitName c.service.name (counter c.service.name st.sequences))) ∨
     (∃ flag, (c.run tbl st).1 =
          some ⟨unitName c.service.name (counter c.service.name st.sequences),
            c.service.name, flag⟩ ∧
        (c.run tbl st).2.sequences = increment c.service.name st.sequences ∧
        (c.run tbl st).2.units = st.units ++
          [⟨unitName c.service.name (counter c.service.name st.sequences),
            c.service.name, flag⟩])) := by
  have key : ∀ (s : Service) (flag : Bool) (r : Except string mstate.Unit × State),
      addOutcome s flag st r →
      let q : Option mstate.Unit × State :=
        match r with
        | (.ok u, st1) => (some u, st1)
        | (.error _, st1) => (none, st1)
      (q.2.services = st.services ∧ q.2.charms = st.charms ∧
        (st.faults = [] → q.2.faults = [])) ∧
      ((q.1 = none ∧ q.2.sequences = st.sequences ∧ q.2.units.Sublist st.units) ∨
       (q.1 = none ∧ q.2.sequences = increment s.name st.sequences ∧ q.2.units = st.units ∧
          (st.faults = [] → ∃ x ∈ st.units,
            x.Name = unitName s.name (counter s.name st.sequences))) ∨
       (∃ flag, q.1 = some ⟨unitName s.name (counter s.name st.sequences), s.name, flag⟩ ∧
          q.2.sequences = increment s.name st.sequences ∧
          q.2.units = st.units ++
            [⟨unitName s.name (counter s.name st.sequences), s.name, flag⟩])) := by
    intro s flag r h
    obtain ⟨res, st1⟩ := r
    obtain ⟨a1, a2, a3, a4⟩ := h
    simp only at a1 a2 a3 a4
    cases res with
    | error e =>
      refine ⟨⟨a1, a2, a3⟩, ?_⟩
      rcases a4 with ⟨-, hu, hq⟩ | ⟨-, hu, hq, hd⟩ | ⟨hok, -⟩
      · exact Or.inl ⟨rfl, hq, by rw [hu]⟩
      · exact Or.inr (Or.inl ⟨rfl, hq, hu, hd⟩)
      · simp at hok
    | ok u =>
      refine ⟨⟨a1, a2, a3⟩, ?_⟩
      rcases a4 with ⟨⟨e, he⟩, -⟩ | ⟨⟨e, he⟩, -⟩ | ⟨hok, hu, hq⟩
      · simp at he
      · simp at he
      · simp only [Except.ok.injEq] at hok
        subst hok
        exact Or.inr (Or.inr ⟨flag, rfl, hq, hu⟩)
  cases c with
  | AddUnit s => exact key s true _ (AddUnit_outcome tbl s st)
  | AddUnitSubordinateTo s p => exact key s _ _ (AddUnitSubordinateTo_outcome tbl s st p)
  | RemoveUnit s u =>
    obtain ⟨h1, h2, h3, h4, h5⟩ := RemoveUnit_outcome tbl s st u
    exact ⟨⟨h4, h5, h3⟩, Or.inl ⟨rfl, h1, h2⟩⟩

theorem unitName_injective_right (n : string) : Function.Injective (unitName n) :=
  fun _ _ h => (unitName_injective n n _ _ h).2

/-- The numbers of the units returned to one service, from any store: they start at the
service's counter or above and strictly increase. -/
theorem returned_numbers (tbl : Char → Bool) (n : string) (calls : List Call) :
    ∀ st : State, ∃ nums : List Nat,
      (returned tbl n calls st).map Unit.Name = nums.map (unitName n) ∧
      nums.Pairwise (fun a b => a < b) ∧
      ∀ k ∈ nums, counter n st.sequences ≤ k := by
  induction calls with
  | nil => intro st; exact ⟨[], rfl, List.Pairwise.nil, by simp⟩
  | cons c cs ih =>
    intro st
    obtain ⟨nums, hn, hp, hk⟩ := ih (c.run tbl st).2
    obtain ⟨-, ho⟩ := run_outcome tbl c st
    by_cases hc : c.service.name = n
    · rcases ho with ⟨hr, hq, -⟩ | ⟨hr, hq, -⟩ | ⟨flag, hr, hq, -⟩
      · refine ⟨nums, ?_, hp, ?_⟩
        · simp only [returned, hr]; exact hn
        · rw [hq] at hk; exact hk
      · refine ⟨nums, ?_, hp, ?_⟩
        · simp only [returned, hr]; exact hn
        · intro k hmem
          have := hk k hmem
          rw [hq, hc, counter_increment_self] at this
          omega
      · rw [hq, hc, counter_increment_self] at hk
        refine ⟨counter n st.sequences :: nums, ?_, ?_, ?_⟩
        · simp only [returned, hr, hc, if_true, List.map_cons, hn, Unit.Name]
        · refine List.Pairwise.cons ?_ hp
          intro k hmem
          have := hk k hmem
          omega
        · intro k hmem
          rcases List.mem_cons.1 hmem with rfl | hmem
          · exact le_refl _
          · have := hk k hmem
            omega
    · have hcounter : counter n (c.run tbl st).2.sequences = counter n st.sequences := by
        rcases ho with ⟨-, hq, -⟩ | ⟨-, hq, -⟩ | ⟨flag, -, hq, -⟩
        · rw [hq]
        · rw [hq, counter_increment_other _ _ _ (Ne.symm hc)]
        · rw [hq, counter_increment_other _ _ _ (Ne.symm hc)]
      refine ⟨nums, ?_, hp, ?_⟩
      · unfold returned
        split
        · simp only [hc, if_false]; exact hn
        · exact hn
      · rw [hcounter] at hk; exact hk

theorem run_allocated (tbl : Char → Bool) (c : Call) (st : State) (hinv : st.allocated) :
    (c.run tbl st).2.allocated ∧
    (((c.run tbl st).1 = none ∧ (c.run tbl st).2.sequences = st.sequences) ∨
     (∃ flag, (c.run tbl st).1 =
        some ⟨unitName c.service.name (counter c.service.name st.sequences),
          c.service.name, flag⟩ ∧
      (c.run tbl st).2.sequences = increment c.service.name st.sequences)) := by
  obtain ⟨hfaults, hunits⟩ := hinv
  obtain ⟨⟨-, -, hf⟩, ho⟩ := run_outcome tbl c st
  have hmono : ∀ (m : string) (k : Nat), k < counter m st.sequences →
      k < counter m (increment c.service.name st.sequences) := by
    intro m k hk
    by_cases hm : m = c.service.name
    · rw [hm, counter_increment_self]; rw [hm] at hk; omega
    · rw [counter_increment_other _ _ _ hm]; exact hk
  rcases ho with ⟨hr, hq, hsub⟩ | ⟨-, -, -, hdup⟩ | ⟨flag, hr, hq, hu⟩
  · refine ⟨⟨hf hfaults, ?_⟩, Or.inl ⟨hr, hq⟩⟩
    intro d hd
    rw [hq]
    exact hunits d (hsub.subset hd)
  · exfalso
    obtain ⟨x, hx, hname⟩ := hdup hfaults
    obtain ⟨k, hk, hlt⟩ := hunits x hx
    rw [hk] at hname
    obtain ⟨hsvc, hkk⟩ := unitName_injective _ _ _ _ hname
    rw [hsvc, hkk] at hlt
    exact Nat.lt_irrefl _ hlt
  · refine ⟨⟨hf hfaults, ?_⟩, Or.inr ⟨flag, hr, hq⟩⟩
    intro d hd
    rw [hu] at hd
    rw [hq]
    rcases List.mem_append.1 hd with hd | hd
    · obtain ⟨k, hk, hlt⟩ := hunits d hd
      exact ⟨k, hk, hmono _ _ hlt⟩
    · simp only [List.mem_singleton] at hd
      subst hd
      exact ⟨counter c.service.name st.sequences, rfl, by
        simp only [counter_increment_self]; omega⟩

/-- From a store that satisfies the invariant of fresh stores, the units returned to one
service are numbered consecutively from the service's counter. -/
theorem returned_consecutive (tbl : Char → Bool) (n : string) (calls : List Call) :
    ∀ st : State, st.allocated →
      (returned tbl n calls st).map Unit.Name =
        (List.range' (counter n st.sequences) (returned tbl n calls st).length).map
          (unitName n) := by
  induction calls with
  | nil => intro st _; rfl
  | cons c cs ih =>
    intro st hinv
    obtain ⟨hinv1, ho⟩ := run_allocated tbl c st hinv
    have h := ih (c.run tbl st).2 hinv1
    rcases ho with ⟨hr, hq⟩ | ⟨flag, hr, hq⟩
    · simp only [returned, hr]
      rw [hq] at h
      exact h
    · by_cases hc : c.service.name = n
      · rw [hq, hc, counter_increment_self] at h
        simp only [returned, hr, hc, if_true, List.map_cons, List.length_cons,
          List.range'_succ, h, Unit.Name]
      · rw [hq, counter_increment_other _ _ _ (Ne.symm hc)] at h
        simp only [returned, hr, hc, if_false]
        exact h

theorem fresh_allocated (st : State) (h : st.fresh) (hf : st.faults = []) : st.allocated := by
  obtain ⟨hu, -⟩ := h
  exact ⟨hf, by rw [hu]; simp⟩

theorem counter_fresh (n : string) (st : State) (h : st.fresh) : counter n st.sequences = 0 := by
  rw [h.2]
  rfl

theorem Charm_stable (tbl : Char → Bool) (s : Service) (st st1 : State) (hf : st.faults = [])
    (hf1 : st1.faults = []) (hs : st1.services = st.services) (hc : st1.charms = st.charms) :
    (s.Charm tbl st1).1 = (s.Charm tbl st).1 := by
  obtain ⟨svcs, us, chs, sqs, fs⟩ := st
  obtain ⟨svcs1, us1, chs1, sqs1, fs1⟩ := st1
  simp only at hf hf1 hs hc
  subst hf hf1 hs hc
  simp only [Service.Charm, Service.CharmURL, State.findService, State.roundTrip]
  cases svcs1.find? (fun d => decide (d.Name = s.name)) with
  | none => rfl
  | some d =>
    simp only [State.Charm, State.roundTrip]
    cases d.CharmURL with
    | none => rfl
    | some u =>
      simp only
      cases chs1.find? (fun d => decide (d.URL = u)) with
      | none => rfl
      | some cd =>
        simp only
        cases cd.Meta <;> rfl

theorem AddUnit_ok_charm (tbl : Char → Bool) (s : Service) (st : State) (u : mstate.Unit)
    (h : (s.AddUnit tbl st).1 = .ok u) :
    ∃ ch, (s.Charm tbl st).1 = .ok ch ∧ ch.Meta.Subordinate = false := by
  obtain ⟨r, st1, hch⟩ : ∃ r st1, s.Charm tbl st = (r, st1) := ⟨_, _, rfl⟩
  cases r with
  | error c => rw [AddUnit_charm_error tbl s st st1 c hch] at h; simp at h
  | ok ch =>
    rw [AddUnit_charm_ok tbl s st st1 ch hch] at h
    cases hsub : ch.Meta.Subordinate with
    | true => simp [hsub] at h
    | false => exact ⟨ch, by rw [hch], hsub⟩

theorem AddUnitSubordinateTo_ok_charm (tbl : Char → Bool)
    (s : Service) (st : State) (p u : mstate.Unit)
    (h : (s.AddUnitSubordinateTo tbl st p).1 = .ok u) :
    ∃ ch, (s.Charm tbl st).1 = .ok ch ∧ ch.Meta.Subordinate = true := by
  obtain ⟨r, st1, hch⟩ : ∃ r st1, s.Charm tbl st = (r, st1) := ⟨_, _, rfl⟩
  cases r with
  | error c => rw [AddUnitSubordinateTo_charm_error tbl s st st1 c p hch] at h; simp at h
  | ok ch =>
    rw [AddUnitSubordinateTo_charm_ok tbl s st st1 ch p hch] at h
    cases hsub : ch.Meta.Subordinate with
    | false => simp [hsub] at h
    | true => exact ⟨ch, by rw [hch], hsub⟩

theorem run_AddUnit_some (tbl : Char → Bool) (s : Service) (st : State) (u : mstate.Unit)
    (h : ((Call.AddUnit s).run tbl st).1 = some u) : (s.AddUnit tbl st).1 = .ok u := by
  simp only [Call.run] at h
  obtain ⟨r, st1, hr⟩ : ∃ r st1, s.AddUnit tbl st = (r, st1) := ⟨_, _, rfl⟩
  rw [hr] at h ⊢
  cases r with
  | error e => simp at h
  | ok v => simp only [Option.some.injEq] at h; rw [h]

theorem run_AddUnitSubordinateTo_some (tbl : Char → Bool)
    (s : Service) (st : State) (p u : mstate.Unit)
    (h : ((Call.AddUnitSubordinateTo s p).run tbl st).1 = some u) :
    (s.AddUnitSubordinateTo tbl st p).1 = .ok u := by
  simp only [Call.run] at h
  obtain ⟨r, st1, hr⟩ : ∃ r st1, s.AddUnitSubordinateTo tbl st p = (r, st1) := ⟨_, _, rfl⟩
  rw [hr] at h ⊢
  cases r with
  | error e => simp at h
  | ok v => simp only [Option.some.injEq] at h; rw [h]

/-- On a store without scheduled failures, a service whose charm does not resolve to a
principal charm gets no unit from AddUnit. -/
theorem returnedByAddUnit_nil (tbl : Char → Bool) (n : string) (calls : List Call) :
    ∀ st : State, st.faults = [] →
      (∀ ch, ((⟨n⟩ : Service).Charm tbl st).1 = .ok ch → ch.Meta.Subordinate = true) →
      returnedByAddUnit tbl n calls st = [] := by
  induction calls with
  | nil => intro st _ _; rfl
  | cons c cs ih =>
    intro st hf hsub
    obtain ⟨⟨hs, hc, hf1⟩, -⟩ := run_outcome tbl c st
    have hstable := Charm_stable tbl ⟨n⟩ st (c.run tbl st).2 hf (hf1 hf) hs hc
    have hrec := ih (c.run tbl st).2 (hf1 hf) (by rw [hstable]; exact hsub)
    unfold returnedByAddUnit
    split
    · next s u hu =>
      by_cases hn : s.name = n
      · exfalso
        obtain ⟨ch, hch, hfalse⟩ := AddUnit_ok_charm tbl s st u (run_AddUnit_some tbl s st u hu)
        have hsn : s = ⟨n⟩ := by cases s; simp_all
        rw [hsn] at hch
        rw [hsub ch hch] at hfalse
        exact absurd hfalse (by decide)
      · simp only [hn, if_false]; exact hrec
    · exact hrec

/-- On a store without scheduled failures, every unit returned to a service whose charm
resolves to a principal charm was returned by AddUnit. -/
theorem returnedByAddUnit_eq_returned (tbl : Char → Bool) (n : string) (calls : List Call) :
    ∀ st : State, st.faults = [] →
      (∃ ch, ((⟨n⟩ : Service).Charm tbl st).1 = .ok ch ∧ ch.Meta.Subordinate = false) →
      returnedByAddUnit tbl n calls st = returned tbl n calls st := by
  induction calls with
  | nil => intro st _ _; rfl
  | cons c cs ih =>
    intro st hf hprin
    obtain ⟨⟨hs, hc, hf1⟩, -⟩ := run_outcome tbl c st
    have hstable := Charm_stable tbl ⟨n⟩ st (c.run tbl st).2 hf (hf1 hf) hs hc
    have hrec := ih (c.run tbl st).2 (hf1 hf) (by rw [hstable]; exact hprin)
    cases c with
    | AddUnit s =>
      unfold returnedByAddUnit returned
      cases hr : ((Call.AddUnit s).run tbl st).1 with
      | none => simp only [hr] at hrec ⊢; exact hrec
      | some u => simp only [hr, Call.service] at hrec ⊢; rw [hrec]
    | AddUnitSubordinateTo s p =>
      unfold returnedByAddUnit returned
      cases hr : ((Call.AddUnitSubordinateTo s p).run tbl st).1 with
      | none => simp only [hr] at hrec ⊢; exact hrec
      | some u =>
        simp only [hr, Call.service] at hrec ⊢
        by_cases hn : s.name = n
        · exfalso
          obtain ⟨ch, hch, htrue⟩ :=
            AddUnitSubordinateTo_ok_charm tbl s st p u (run_AddUnitSubordinateTo_some tbl s st p u hr)
          obtain ⟨ch2, hch2, hfalse⟩ := hprin
          have hsn : s = ⟨n⟩ := by cases s; simp_all
          rw [hsn, hch2] at hch
          simp only [Except.ok.injEq] at hch
          rw [hch, htrue] at hfalse
          exact absurd hfalse (by decide)
        · simp only [hn, if_false]; exact hrec
    | RemoveUnit s u =>
      unfold returnedByAddUnit returned
      have hr : ((Call.RemoveUnit s u).run tbl st).1 = none := rfl
      simp only [hr] at hrec ⊢
      exact hrec

/-! ## The role of a created unit -/

/-- C10: every successful AddUnit inserts a record and returns a unit with isPrincipal
true; for every principal unit p every successful AddUnitSubordinateTo(p) inserts a
record and returns a unit with isPrincipal false; in both cases the inserted record
carries the name, service name and flag of the returned unit, and the service name is
that of the service.  A unit is one the package has made, so its name is not empty, and
that is the hypothesis on the name of p: the units that AddUnit and
AddUnitSubordinateTo return are named service/number, Unit and AllUnits return the
names of records, and no call puts a record with an empty name into the store. -/
theorem created_unit_role (tbl : Char → Bool) :
    (∀ (s : Service) (st : State) (u : mstate.Unit), (s.AddUnit tbl st).1 = .ok u →
      u.isPrincipal = true ∧ u.serviceName = s.name ∧
      (s.AddUnit tbl st).2.units = st.units ++ [u.doc] ∧
      (∃ k, u.name = s.name ++ "/" ++ strconv.Itoa k) ∧ u.name ≠ "") ∧
    (∀ (s : Service) (st : State) (p u : mstate.Unit), p.IsPrincipal = true → p.name ≠ "" →
      (s.AddUnitSubordinateTo tbl st p).1 = .ok u →
      u.isPrincipal = false ∧ u.serviceName = s.name ∧
      (s.AddUnitSubordinateTo tbl st p).2.units = st.units ++ [u.doc] ∧
      (∃ k, u.name = s.name ++ "/" ++ strconv.Itoa k) ∧ u.name ≠ "") ∧
    (∀ (s : Service) (st : State) (n : string) (u : mstate.Unit),
      (∀ d ∈ st.units, d.Name ≠ "") → (s.Unit tbl st n).1 = .ok u → u.name ≠ "") ∧
    (∀ (s : Service) (st : State) (us : List mstate.Unit),
      (∀ d ∈ st.units, d.Name ≠ "") → (s.AllUnits tbl st).1 = .ok us →
      ∀ u ∈ us, u.name ≠ "") ∧
    (∀ (c : Call) (st : State),
      (∀ d ∈ st.units, d.Name ≠ "") → ∀ d ∈ (c.run tbl st).2.units, d.Name ≠ "") := by
  refine ⟨?_, ?_, ?_, ?_, ?_⟩
  · intro s st u h
    have hf := (Charm_sameData tbl s st).2.1
    obtain ⟨r, st1, hch⟩ : ∃ r st1, s.Charm tbl st = (r, st1) := ⟨_, _, rfl⟩
    rw [hch] at hf
    simp only at hf
    cases r with
    | error c => rw [AddUnit_charm_error tbl s st st1 c hch] at h; simp at h
    | ok ch =>
      rw [AddUnit_charm_ok tbl s st st1 ch hch] at h ⊢
      cases hsub : ch.Meta.Subordinate with
      | true => simp [hsub] at h
      | false =>
        simp only [hsub, Bool.false_eq_true, if_false] at h ⊢
        obtain ⟨-, -, -, ho⟩ := addUnit_outcome tbl s st1 ""
        rcases ho with ⟨⟨e, he⟩, -⟩ | ⟨⟨e, he⟩, -⟩ | ⟨hok, hu, -⟩
        · rw [he] at h; simp at h
        · rw [he] at h; simp at h
        · rw [hok] at h
          injection h with h
          subst h
          exact ⟨by simp, rfl, by simp [hu, hf, Unit.doc], ⟨_, rfl⟩, unitName_ne_empty _ _⟩
  · intro s st p u hp hne h
    have hf := (Charm_sameData tbl s st).2.1
    obtain ⟨r, st1, hch⟩ : ∃ r st1, s.Charm tbl st = (r, st1) := ⟨_, _, rfl⟩
    rw [hch] at hf
    simp only at hf
    cases r with
    | error c => rw [AddUnitSubordinateTo_charm_error tbl s st st1 c p hch] at h; simp at h
    | ok ch =>
      rw [AddUnitSubordinateTo_charm_ok tbl s st st1 ch p hch] at h ⊢
      cases hsub : ch.Meta.Subordinate with
      | false => simp [hsub] at h
      | true =>
        simp only [hsub, hp, Bool.not_true, Bool.false_eq_true, if_false] at h ⊢
        obtain ⟨-, -, -, ho⟩ := addUnit_outcome tbl s st1 p.name
        rcases ho with ⟨⟨e, he⟩, -⟩ | ⟨⟨e, he⟩, -⟩ | ⟨hok, hu, -⟩
        · rw [he] at h; simp at h
        · rw [he] at h; simp at h
        · rw [hok] at h
          injection h with h
          subst h
          exact ⟨by simp [hne], rfl, by simp [hu, hf, Unit.doc], ⟨_, rfl⟩,
            unitName_ne_empty _ _⟩
  · intro s st n u hnames h
    cases hanswer : st.roundTrip.1 with
    | some c => rw [Unit_fault tbl s st n c hanswer] at h; simp at h
    | none =>
      rw [Unit_answer tbl s st n hanswer] at h
      cases hfind : st.units.find? (unitSel n s.name) with
      | none => rw [hfind] at h; simp at h
      | some d =>
        rw [hfind] at h
        simp only [Except.ok.injEq] at h
        subst h
        have hsel := List.find?_some hfind
        simp only [unitSel, Bool.and_eq_true, decide_eq_true_eq] at hsel
        have := hnames d (List.mem_of_find?_eq_some hfind)
        rw [hsel.1] at this
        exact this
  · intro s st us hnames h
    cases hanswer : st.roundTrip.1 with
    | some c => rw [AllUnits_fault tbl s st c hanswer] at h; simp at h
    | none =>
      rw [AllUnits_ok tbl s st hanswer] at h
      simp only [Except.ok.injEq] at h
      subst h
      intro u hu
      simp only [List.mem_map, List.mem_filter] at hu
      obtain ⟨d, ⟨hd, -⟩, rfl⟩ := hu
      exact hnames d hd
  · intro c st hnames d hd
    obtain ⟨-, ho⟩ := run_outcome tbl c st
    rcases ho with ⟨-, -, hsub⟩ | ⟨-, -, hu, -⟩ | ⟨flag, -, -, hu⟩
    · exact hnames d (hsub.subset hd)
    · rw [hu] at hd; exact hnames d hd
    · rw [hu] at hd
      rcases List.mem_append.1 hd with hd | hd
      · exact hnames d hd
      · simp only [List.mem_singleton] at hd
        subst hd
        exact unitName_ne_empty _ _

theorem created_unit_role_witness :
    ((⟨"wordpress/0", "wordpress", true⟩ : mstate.Unit).isPrincipal = true ∧
      (⟨"wordpress/0", "wordpress", true⟩ : mstate.Unit).serviceName = wordpress.name ∧
      (wordpress.AddUnit exampleTable exampleStore).2.units =
        exampleStore.units ++ [(⟨"wordpress/0", "wordpress", true⟩ : mstate.Unit).doc] ∧
      (∃ k, (⟨"wordpress/0", "wordpress", true⟩ : mstate.Unit).name =
        wordpress.name ++ "/" ++ strconv.Itoa k) ∧
      (⟨"wordpress/0", "wordpress", true⟩ : mstate.Unit).name ≠ "") ∧
    ((⟨"logging/0", "logging", false⟩ : mstate.Unit).isPrincipal = false ∧
      (⟨"logging/0", "logging", false⟩ : mstate.Unit).serviceName = logging.name ∧
      (logging.AddUnitSubordinateTo exampleTable exampleStore ⟨"wordpress/0", "wordpress", true⟩).2.units =
        exampleStore.units ++ [(⟨"logging/0", "logging", false⟩ : mstate.Unit).doc] ∧
      (∃ k, (⟨"logging/0", "logging", false⟩ : mstate.Unit).name =
        logging.name ++ "/" ++ strconv.Itoa k) ∧
      (⟨"logging/0", "logging", false⟩ : mstate.Unit).name ≠ "") ∧
    (⟨"wordpress/1", "wordpress", true⟩ : mstate.Unit).name ≠ "" ∧
    (∀ u ∈ ([⟨"wordpress/0", "wordpress", true⟩, ⟨"wordpress/1", "wordpress", true⟩,
      ⟨"wordpress/2", "wordpress", true⟩] : List mstate.Unit), u.name ≠ "") ∧
    (∀ d ∈ ((Call.AddUnit wordpress).run exampleTable fourUnitsStore).2.units, d.Name ≠ "") :=
  ⟨(created_unit_role exampleTable).1 wordpress exampleStore
     ⟨"wordpress/0", "wordpress", true⟩ (by decide),
   (created_unit_role exampleTable).2.1 logging exampleStore ⟨"wordpress/0", "wordpress", true⟩
     ⟨"logging/0", "logging", false⟩ (by decide) (by decide) (by decide),
   (created_unit_role exampleTable).2.2.1 wordpress fourUnitsStore "wordpress/1"
     ⟨"wordpress/1", "wordpress", true⟩ (by decide) (by decide),
   (created_unit_role exampleTable).2.2.2.1 wordpress fourUnitsStore
     [⟨"wordpress/0", "wordpress", true⟩, ⟨"wordpress/1", "wordpress", true⟩,
      ⟨"wordpress/2", "wordpress", true⟩] (by decide) (by decide),
   (created_unit_role exampleTable).2.2.2.2 (.AddUnit wordpress) fourUnitsStore (by decide)⟩

/-! ## Unit numbering -/

end mstate
